import Mathlib

/-!
# Verification of the quizzer-extension parsing / normalization core

This file gives a shallow embedding, in Lean 4, of the response-parsing and
normalization core of the `quizzer-extension` repository:

* `server/quiz/parser.ts` — the multi-format quiz parser
  (`parseJSONResponse`, `parseMarkdownResponse`, `parseStructuredResponse`,
  `parseQuizResponse`, `normalizeQuestion`, `normalizeQuestionType`,
  `validateQuiz`);
* the response-evaluation service — `parseEvaluationResponse`,
  `extractStructuredEvaluation`, `extractBulletPoints`,
  `validateEvaluationResult`;
* the content preprocessor — `cleanContent`, `estimateTokenCount`,
  `extractKeyTerms`, `truncateContent`, `preprocessContent`;
* `server/claude/tokens.ts` — `estimateTokenCount`;
* the retry policy — `calculateBackoff`.

Modelling conventions:

* JavaScript strings are modelled as Lean `String` / `List Char`; scanners
  work on `List Char`.  The JavaScript regular expressions that appear in
  the source are concrete, so each one is translated into an explicit
  character-level scanner implementing its leftmost-match / greedy /
  lazy / backtracking behaviour.  The `\s` class is modelled by the ASCII
  whitespace characters (space, tab, newline, carriage return, form feed,
  vertical tab); the source never depends on the extra Unicode members.
* JavaScript numbers are modelled as `ℚ`.  Every number the relevant code
  paths produce (JSON literals, small integer arithmetic, the backoff
  formula) is computed exactly by the corresponding double
  operations in the modelled range, so `ℚ` is a faithful model there.
* `JSON.parse` is modelled by `jsonParse`, a strict JSON recursive-descent
  parser written with an explicit fuel argument (the fuel is the input
  length plus a constant, which is ample because every recursive call
  consumes at least one character).
* `throw` / `try` / `catch` are modelled with `Except String`: a function
  body that can throw returns `Except`, and a `catch` pattern-matches on
  it.  Functions that the source guarantees cannot throw are total Lean
  functions.
* `new Date().toISOString()` is modelled by an explicit `now : String`
  parameter threaded through the functions that call it.
* `Math.random()` is modelled by an explicit parameter `r` with
  `0 ≤ r < 1`.
-/

set_option maxRecDepth 20000

/-! ## JavaScript string primitives -/

/-- The characters matched by the JavaScript `\s` class (ASCII fragment). -/
def isWsChar (c : Char) : Bool :=
  c = ' ' || c = '\t' || c = '\n' || c = '\r' || c = '\x0b' || c = '\x0c'

/-- ASCII decimal digit. -/
def isDigitChar (c : Char) : Bool :=
  '0' ≤ c && c ≤ '9'

/-- ASCII letter. -/
def isAsciiLetter (c : Char) : Bool :=
  ('a' ≤ c && c ≤ 'z') || ('A' ≤ c && c ≤ 'Z')

/-- JavaScript `\w` (word character): letters, digits, underscore. -/
def isWordChar (c : Char) : Bool :=
  isAsciiLetter c || isDigitChar c || c = '_'

/-- Case-insensitive character comparison (ASCII case folding, which is all
the source's `i`-flag regexes rely on). -/
def ciEq (a b : Char) : Bool :=
  a.toLower = b.toLower

/-- JavaScript `String.prototype.trim` on a character list. -/
def jsTrim (cs : List Char) : List Char :=
  ((cs.dropWhile isWsChar).reverse.dropWhile isWsChar).reverse

/-- JavaScript `trim` on a `String`. -/
def jsTrimS (s : String) : String :=
  String.mk (jsTrim s.toList)

/-- JavaScript `toLowerCase` (ASCII fragment). -/
def toLowerL (cs : List Char) : List Char :=
  cs.map Char.toLower

/-- JavaScript `toLowerCase` on a `String`. -/
def toLowerS (s : String) : String :=
  String.mk (toLowerL s.toList)

/-- Does `cs` start with `pre` (case-sensitive)? -/
def startsWithL : List Char → List Char → Bool
  | [], _ => true
  | _ :: _, [] => false
  | p :: ps, c :: cs => p = c && startsWithL ps cs

/-- Does `cs` start with `pre`, comparing case-insensitively? -/
def startsWithCI : List Char → List Char → Bool
  | [], _ => true
  | _ :: _, [] => false
  | p :: ps, c :: cs => ciEq p c && startsWithCI ps cs

/-- Match a literal (case-sensitive); return the remainder on success. -/
def matchLit : List Char → List Char → Option (List Char)
  | [], cs => some cs
  | _ :: _, [] => none
  | p :: ps, c :: cs => if p = c then matchLit ps cs else none

/-- Match a literal case-insensitively; return the remainder on success. -/
def matchCI : List Char → List Char → Option (List Char)
  | [], cs => some cs
  | _ :: _, [] => none
  | p :: ps, c :: cs => if ciEq p c then matchCI ps cs else none

/-- JavaScript `String.prototype.includes` (case-sensitive substring test). -/
def containsSub (hay needle : List Char) : Bool :=
  match hay with
  | [] => startsWithL needle []
  | _ :: rest => startsWithL needle hay || containsSub rest needle

/-- Substring test, case-insensitive. -/
def containsSubCI (hay needle : List Char) : Bool :=
  match hay with
  | [] => startsWithCI needle []
  | _ :: rest => startsWithCI needle hay || containsSubCI rest needle

/-- `includes` on `String`s (as in `lowerType.includes('multiple')`). -/
def containsS (s : String) (needle : String) : Bool :=
  containsSub s.toList needle.toList

/-- First index at which the case-insensitive literal `needle` occurs. -/
def findSubCI (needle : List Char) : List Char → Option Nat
  | [] => if needle = [] then some 0 else none
  | c :: rest =>
    if startsWithCI needle (c :: rest) then some 0
    else match findSubCI needle rest with
      | some k => some (k + 1)
      | none => none

/-- JavaScript `String.prototype.split(sep)` for a single separator char. -/
def splitChar (sep : Char) : List Char → List (List Char)
  | [] => [[]]
  | c :: rest =>
    if c = sep then [] :: splitChar sep rest
    else match splitChar sep rest with
      | [] => [[c]]
      | seg :: segs => (c :: seg) :: segs

/-- JavaScript `Array.prototype.findIndex`: `-1` when no element matches. -/
def jsFindIndex (p : α → Bool) : List α → Int
  | [] => -1
  | a :: rest =>
    if p a then 0
    else match jsFindIndex p rest with
      | -1 => -1
      | k => k + 1

/-- `Array.prototype.map` with the element index, as used by the source's
`.map((q, index) => ...)` / `.forEach((s, index) => ...)`. -/
def mapWithIndex (f : Nat → α → β) : Nat → List α → List β
  | _, [] => []
  | i, a :: rest => f i a :: mapWithIndex f (i + 1) rest

/-- JavaScript `Array.prototype.slice(start, end)` with the negative-index
and clamping semantics of ECMAScript. -/
def jsSlice (l : List α) (s e : Int) : List α :=
  let len : Int := l.length
  let s' : Int := if s < 0 then max 0 (len + s) else min s len
  let e' : Int := if e < 0 then max 0 (len + e) else min e len
  (l.drop s'.toNat).take (e' - s').toNat

/-- `String.prototype.charCodeAt(0) - 65` for an uppercased letter. -/
def letterIndex (c : Char) : Nat :=
  c.toUpper.toNat - 65

/-- Letters `A`–`D`, case-insensitively (the `i`-flagged class `[A-D]`). -/
def isLetterAD (c : Char) : Bool :=
  ('A' ≤ c && c ≤ 'D') || ('a' ≤ c && c ≤ 'd')

example : jsTrim "  ab c  ".toList = "ab c".toList := by decide
example : containsSub "multiple_choice".toList "choice".toList = true := by decide
example : splitChar '\n' "a\nb".toList = ["a".toList, "b".toList] := by decide
example : jsSlice [1, 2, 3, 4, 5] 0 (-2) = [1, 2, 3] := by decide

/-! ## JSON values and `JSON.parse` -/

/-- The values produced by `JSON.parse`.  Numbers are modelled as `ℚ`
(JSON literals are decimal, hence exactly representable; the doubles the
engine produces agree with the rational value everywhere the source uses
them).  Objects are ordered field lists with unique keys: duplicate keys
are collapsed during parsing, last value winning, as in JavaScript. -/
inductive JsonValue where
  | null
  | bool (b : Bool)
  | num (q : ℚ)
  | str (s : String)
  | arr (elems : List JsonValue)
  | obj (fields : List (String × JsonValue))
deriving Repr

mutual

/-- Boolean equality on JSON values (for the decidable-equality instance). -/
def jsonBeq : JsonValue → JsonValue → Bool
  | .null, .null => true
  | .bool a, .bool b => a == b
  | .num a, .num b => a == b
  | .str a, .str b => a == b
  | .arr a, .arr b => jsonBeqList a b
  | .obj a, .obj b => jsonBeqFields a b
  | _, _ => false
termination_by structural a => a

/-- Boolean equality on JSON value lists. -/
def jsonBeqList : List JsonValue → List JsonValue → Bool
  | [], [] => true
  | x :: xs, y :: ys => jsonBeq x y && jsonBeqList xs ys
  | _, _ => false
termination_by structural a => a

/-- Boolean equality on JSON field lists. -/
def jsonBeqFields : List (String × JsonValue) → List (String × JsonValue) → Bool
  | [], [] => true
  | (k, v) :: xs, (k2, v2) :: ys => k == k2 && jsonBeq v v2 && jsonBeqFields xs ys
  | _, _ => false
termination_by structural a => a

end

mutual

/-- `jsonBeq` decides equality. -/
theorem jsonBeq_iff : ∀ (a b : JsonValue), jsonBeq a b = true ↔ a = b
  | .null, b => by cases b <;> simp [jsonBeq]
  | .bool x, b => by cases b <;> simp [jsonBeq]
  | .num x, b => by cases b <;> simp [jsonBeq]
  | .str x, b => by cases b <;> simp [jsonBeq]
  | .arr xs, b => by
    cases b <;> simp [jsonBeq]
    exact jsonBeqList_iff xs _
  | .obj fs, b => by
    cases b <;> simp [jsonBeq]
    exact jsonBeqFields_iff fs _

/-- `jsonBeqList` decides equality. -/
theorem jsonBeqList_iff : ∀ (a b : List JsonValue), jsonBeqList a b = true ↔ a = b
  | [], [] => by simp [jsonBeqList]
  | [], _ :: _ => by simp [jsonBeqList]
  | _ :: _, [] => by simp [jsonBeqList]
  | x :: xs, y :: ys => by
    simp only [jsonBeqList, Bool.and_eq_true, List.cons.injEq]
    rw [jsonBeq_iff x y, jsonBeqList_iff xs ys]

/-- `jsonBeqFields` decides equality. -/
theorem jsonBeqFields_iff :
    ∀ (a b : List (String × JsonValue)), jsonBeqFields a b = true ↔ a = b
  | [], [] => by simp [jsonBeqFields]
  | [], _ :: _ => by simp [jsonBeqFields]
  | _ :: _, [] => by simp [jsonBeqFields]
  | (k, v) :: xs, (k2, v2) :: ys => by
    simp only [jsonBeqFields, Bool.and_eq_true, List.cons.injEq, Prod.mk.injEq,
      beq_iff_eq]
    rw [jsonBeq_iff v v2, jsonBeqFields_iff xs ys, and_assoc]

end

instance : DecidableEq JsonValue :=
  fun a b => decidable_of_iff _ (jsonBeq_iff a b)

deriving instance DecidableEq for Except

/-- Field lookup on an object value (`undefined` is `none`). -/
def lookupJ (fields : List (String × JsonValue)) (key : String) : Option JsonValue :=
  match fields with
  | [] => none
  | (k, v) :: rest => if k = key then some v else lookupJ rest key

/-- Property access `j.key` (non-objects have no string-keyed properties the
source reads). -/
def jGet (j : JsonValue) (key : String) : Option JsonValue :=
  match j with
  | .obj fields => lookupJ fields key
  | _ => none

/-- Optional-chained two-step access `j.a?.b`. -/
def jGet2 (j : JsonValue) (k1 k2 : String) : Option JsonValue :=
  match jGet j k1 with
  | some v => jGet v k2
  | none => none

/-- JavaScript truthiness of a JSON value. -/
def jsTruthy : JsonValue → Bool
  | .null => false
  | .bool b => b
  | .num q => q ≠ 0
  | .str s => s ≠ ""
  | .arr _ => true
  | .obj _ => true

/-- Property assignment `obj[k] = v`: overwrite in place, else append. -/
def upsertJ (fields : List (String × JsonValue)) (key : String) (v : JsonValue) :
    List (String × JsonValue) :=
  match fields with
  | [] => [(key, v)]
  | (k, w) :: rest =>
    if k = key then (k, v) :: rest else (k, w) :: upsertJ rest key v

/-- Whitespace accepted by strict JSON (RFC 8259): space, tab, LF, CR. -/
def isJsonWs (c : Char) : Bool :=
  c = ' ' || c = '\t' || c = '\n' || c = '\r'

/-- Skip JSON whitespace. -/
def skipJsonWs (cs : List Char) : List Char :=
  cs.dropWhile isJsonWs

/-- Value of a hexadecimal digit. -/
def hexDigitVal (c : Char) : Option Nat :=
  if '0' ≤ c && c ≤ '9' then some (c.toNat - 48)
  else if 'a' ≤ c && c ≤ 'f' then some (c.toNat - 87)
  else if 'A' ≤ c && c ≤ 'F' then some (c.toNat - 55)
  else none

/-- Prepend a character onto the pending string result. -/
def consE (c : Char) (e : Except String (List Char × List Char)) :
    Except String (List Char × List Char) :=
  e.map (fun p => (c :: p.1, p.2))

/-- Body of a JSON string literal, after the opening quote.  Returns the
decoded characters and the remainder after the closing quote.  A `\uXXXX`
escape is decoded with `Char.ofNat` (the relevant code never feeds
surrogate pairs through this path). -/
def parseJStringBody : List Char → Except String (List Char × List Char)
  | [] => .error "Unterminated string in JSON"
  | '"' :: rest => .ok ([], rest)
  | '\\' :: '"' :: rest => consE '"' (parseJStringBody rest)
  | '\\' :: '\\' :: rest => consE '\\' (parseJStringBody rest)
  | '\\' :: '/' :: rest => consE '/' (parseJStringBody rest)
  | '\\' :: 'b' :: rest => consE '\x08' (parseJStringBody rest)
  | '\\' :: 'f' :: rest => consE '\x0c' (parseJStringBody rest)
  | '\\' :: 'n' :: rest => consE '\n' (parseJStringBody rest)
  | '\\' :: 'r' :: rest => consE '\r' (parseJStringBody rest)
  | '\\' :: 't' :: rest => consE '\t' (parseJStringBody rest)
  | '\\' :: 'u' :: a :: b :: c :: d :: rest =>
    (match hexDigitVal a, hexDigitVal b, hexDigitVal c, hexDigitVal d with
     | some va, some vb, some vc, some vd =>
       consE (Char.ofNat (va * 4096 + vb * 256 + vc * 16 + vd)) (parseJStringBody rest)
     | _, _, _, _ => .error "Bad Unicode escape in JSON")
  | '\\' :: _ => .error "Bad escape in JSON string"
  | c :: rest =>
    if c.toNat < 32 then .error "Bad control character in JSON string"
    else consE c (parseJStringBody rest)

/-- Numeric value of a run of decimal digits. -/
def digitsToNat (ds : List Char) : Nat :=
  ds.foldl (fun n c => n * 10 + (c.toNat - 48)) 0

/-- A JSON number literal (strict grammar: optional minus, integer part
without leading zeros, optional fraction, optional exponent), as `ℚ`. -/
def parseJNumber (cs : List Char) : Except String (ℚ × List Char) :=
  let (neg, cs1) := match cs with
    | '-' :: r => (true, r)
    | _ => (false, cs)
  match cs1 with
  | [] => .error "Expected digit in JSON number"
  | c :: _ =>
    if ¬ isDigitChar c then .error "Expected digit in JSON number"
    else
      let intDigits := cs1.takeWhile isDigitChar
      if c = '0' ∧ intDigits.length > 1 then .error "Leading zero in JSON number"
      else
        let rest1 := cs1.dropWhile isDigitChar
        let (fracDigits, rest2) := match rest1 with
          | '.' :: r => (r.takeWhile isDigitChar, r.dropWhile isDigitChar)
          | _ => ([], rest1)
        if rest1 ≠ rest2 ∧ fracDigits = [] then .error "Expected fraction digits in JSON number"
        else
          let (expOk, expVal, rest3) : Bool × Int × List Char := match rest2 with
            | 'e' :: '+' :: r | 'E' :: '+' :: r =>
              (r.takeWhile isDigitChar ≠ [], (digitsToNat (r.takeWhile isDigitChar) : Int),
                r.dropWhile isDigitChar)
            | 'e' :: '-' :: r | 'E' :: '-' :: r =>
              (r.takeWhile isDigitChar ≠ [], -(digitsToNat (r.takeWhile isDigitChar) : Int),
                r.dropWhile isDigitChar)
            | 'e' :: r | 'E' :: r =>
              (r.takeWhile isDigitChar ≠ [], (digitsToNat (r.takeWhile isDigitChar) : Int),
                r.dropWhile isDigitChar)
            | _ => (true, 0, rest2)
          if ¬ expOk then .error "Expected exponent digits in JSON number"
          else
            -- The literal's exact value is
            -- `(int.frac) * 10 ^ exp = mantissa / 10 ^ |frac|` scaled by the
            -- exponent; it is assembled here with one `mkRat` so that the
            -- value is in normal form.
            let mantissa : Int :=
              (digitsToNat intDigits : Int) * (10 : Int) ^ fracDigits.length +
                (digitsToNat fracDigits : Int)
            let signedMantissa : Int := if neg then -mantissa else mantissa
            let value : ℚ :=
              if 0 ≤ expVal then
                mkRat (signedMantissa * (10 : Int) ^ expVal.toNat)
                  ((10 : Nat) ^ fracDigits.length)
              else
                mkRat signedMantissa
                  ((10 : Nat) ^ (fracDigits.length + expVal.natAbs))
            .ok (value, rest3)

mutual

/-- One JSON value, fuelled recursive descent (see the file header). -/
def parseJVal : Nat → List Char → Except String (JsonValue × List Char)
  | 0, _ => .error "JSON parser fuel exhausted"
  | n + 1, cs =>
    match skipJsonWs cs with
    | [] => .error "Unexpected end of JSON input"
    | '"' :: rest => (parseJStringBody rest).map (fun p => (.str (String.mk p.1), p.2))
    | '\x7b' :: rest => parseJMembersStart n rest
    | '[' :: rest => parseJElemsStart n rest
    | 't' :: rest =>
      (match matchLit "rue".toList rest with
       | some r => .ok (.bool true, r)
       | none => .error "Unexpected token in JSON")
    | 'f' :: rest =>
      (match matchLit "alse".toList rest with
       | some r => .ok (.bool false, r)
       | none => .error "Unexpected token in JSON")
    | 'n' :: rest =>
      (match matchLit "ull".toList rest with
       | some r => .ok (.null, r)
       | none => .error "Unexpected token in JSON")
    | c :: rest =>
      if c = '-' || isDigitChar c then
        (parseJNumber (c :: rest)).map (fun p => (.num p.1, p.2))
      else .error "Unexpected token in JSON"

/-- Object members after the opening brace: empty-object case. -/
def parseJMembersStart : Nat → List Char → Except String (JsonValue × List Char)
  | 0, _ => .error "JSON parser fuel exhausted"
  | n + 1, cs =>
    match skipJsonWs cs with
    | '\x7d' :: rest => .ok (.obj [], rest)
    | _ => parseJMembers n [] cs

/-- The non-empty member list of a JSON object.  Duplicate keys overwrite
in place (`upsertJ`), matching the JavaScript engine. -/
def parseJMembers : Nat → List (String × JsonValue) → List Char →
    Except String (JsonValue × List Char)
  | 0, _, _ => .error "JSON parser fuel exhausted"
  | n + 1, acc, cs =>
    match skipJsonWs cs with
    | '"' :: rest => do
      let (key, r1) ← parseJStringBody rest
      match skipJsonWs r1 with
      | ':' :: r2 => do
        let (v, r3) ← parseJVal n r2
        let acc2 := upsertJ acc (String.mk key) v
        (match skipJsonWs r3 with
         | ',' :: r4 => parseJMembers n acc2 r4
         | '\x7d' :: r4 => .ok (.obj acc2, r4)
         | _ => .error "Expected comma or closing brace in JSON object")
      | _ => .error "Expected colon in JSON object"
    | _ => .error "Expected string key in JSON object"

/-- Array elements after the opening bracket: empty-array case. -/
def parseJElemsStart : Nat → List Char → Except String (JsonValue × List Char)
  | 0, _ => .error "JSON parser fuel exhausted"
  | n + 1, cs =>
    match skipJsonWs cs with
    | ']' :: rest => .ok (.arr [], rest)
    | _ => parseJElems n [] cs

/-- The non-empty element list of a JSON array. -/
def parseJElems : Nat → List JsonValue → List Char →
    Except String (JsonValue × List Char)
  | 0, _, _ => .error "JSON parser fuel exhausted"
  | n + 1, acc, cs => do
    let (v, r1) ← parseJVal n cs
    match skipJsonWs r1 with
    | ',' :: r2 => parseJElems n (acc ++ [v]) r2
    | ']' :: r2 => .ok (.arr (acc ++ [v]), r2)
    | _ => .error "Expected comma or closing bracket in JSON array"

end

/-- `JSON.parse`, modelled on character lists.  The fuel bound
`2 * length + 4` dominates the recursion depth (every recursive call
follows the consumption of at least one input character). -/
def jsonParse (cs : List Char) : Except String JsonValue := do
  let (v, rest) ← parseJVal (2 * cs.length + 4) cs
  match skipJsonWs rest with
  | [] => .ok v
  | _ => .error "Unexpected non-whitespace character after JSON"

example :
    jsonParse "\x7b\"a\":1, \"b\":[true,null]\x7d".toList =
      .ok (JsonValue.obj [("a", JsonValue.num 1),
        ("b", JsonValue.arr [JsonValue.bool true, JsonValue.null])]) := by
  decide

example : jsonParse "\x7bbad\x7d".toList =
    .error "Expected string key in JSON object" := by rfl

example : jsonParse "\x7b\"x\":2.5\x7d".toList =
    .ok (JsonValue.obj [("x", JsonValue.num (mkRat 5 2))]) := by decide

example : jsonParse "\x7b\"x\":-1.5e2\x7d".toList =
    .ok (JsonValue.obj [("x", JsonValue.num (-150))]) := by decide

/-! ## Fenced JSON extraction and near-JSON cleanup

Both the quiz parser and the evaluation service extract a fenced block with
the same regex, and clean it up with the same two substitutions:

* fenced block: three backticks, an optional literal `json` tag,
  whitespace, then a lazily matched brace-delimited capture, whitespace,
  and three closing backticks;
* cleanup: drop `//` line comments, then drop a comma that is followed
  (across whitespace) by a closing brace or bracket. -/

/-- Does the trailing context of the fenced capture (whitespace and then
three backticks) match at this position? -/
def fencedCloseAt (cs : List Char) : Bool :=
  startsWithL "```".toList (cs.dropWhile isWsChar)

/-- The lazy brace capture: consume characters until the first closing
brace whose trailing context matches; the returned capture includes both
braces.  `acc` holds the consumed characters in reverse. -/
def fencedBody (acc : List Char) : List Char → Option (List Char)
  | [] => none
  | c :: rest =>
    if c = '\x7d' ∧ fencedCloseAt rest then
      some ('\x7b' :: acc.reverse ++ ['\x7d'])
    else fencedBody (c :: acc) rest

/-- Try the fenced-block pattern at the current position and return the
brace-delimited capture.  The optional `json` tag is case-sensitive, as in
the source regex. -/
def fencedAt (cs : List Char) : Option (List Char) :=
  match matchLit "```".toList cs with
  | none => none
  | some r1 =>
    let r2 := match matchLit "json".toList r1 with
      | some r => r
      | none => r1
    match r2.dropWhile isWsChar with
    | '\x7b' :: tail => fencedBody [] tail
    | _ => none

/-- Leftmost match of the fenced-JSON regex: the capture group (the curly
braces and everything between them). -/
def findFencedJson : List Char → Option (List Char)
  | [] => none
  | c :: rest =>
    match fencedAt (c :: rest) with
    | some cap => some cap
    | none => findFencedJson rest

/-- `replace(/\/\/.*$/gm, '')`: erase from each `//` to the end of its
line.  The flag tracks whether we are inside an erased comment. -/
def stripLineComments : Bool → List Char → List Char
  | _, [] => []
  | true, c :: rest =>
    if c = '\n' then '\n' :: stripLineComments false rest
    else stripLineComments true rest
  | false, '/' :: '/' :: rest => stripLineComments true rest
  | false, c :: rest => c :: stripLineComments false rest

/-- `replace(/,\s*([}\])])/g, '$1')`: a comma followed (across whitespace)
by a closing brace or bracket is dropped together with the whitespace.
`pending` holds, in reverse, a comma-led run of whitespace whose
resolution is still unknown. -/
def stripTrailingCommas (pending : List Char) : List Char → List Char
  | [] => pending.reverse
  | c :: rest =>
    match pending with
    | [] =>
      if c = ',' then stripTrailingCommas [','] rest
      else c :: stripTrailingCommas [] rest
    | p :: ps =>
      if c = '\x7d' ∨ c = ']' then c :: stripTrailingCommas [] rest
      else if isWsChar c then stripTrailingCommas (c :: p :: ps) rest
      else
        (p :: ps).reverse ++
          (if c = ',' then stripTrailingCommas [','] rest
           else c :: stripTrailingCommas [] rest)

/-- The shared cleanup applied to a fenced capture before `JSON.parse`. -/
def cleanupNearJson (cs : List Char) : List Char :=
  stripTrailingCommas [] (stripLineComments false cs)

example :
    findFencedJson "pre ```json \x7b\"a\":[1,2,]\x7d ``` post".toList =
      some "\x7b\"a\":[1,2,]\x7d".toList := by decide

example :
    cleanupNearJson "\x7b\"a\":[1,2,] // c\n\x7d".toList =
      "\x7b\"a\":[1,2] \n\x7d".toList := by decide

/-! ## JavaScript `String(value)` and object spread -/

/-- Fractional decimal digits of `num / den` (`num < den`), produced by
long division; the fuel bounds the expansion, and is never exhausted for
the denominators `jsonParse` can produce (powers of two and five). -/
def ratFracDigits : Nat → Nat → Nat → List Char
  | 0, _, _ => []
  | _ + 1, 0, _ => []
  | fuel + 1, n, d =>
    Char.ofNat (48 + n * 10 / d) :: ratFracDigits fuel (n * 10 % d) d

/-- `String(x)` for a number, in the exact-decimal range the modelled code
exercises (JSON literals round-tripped through `ℚ`). -/
def ratToJsString (q : ℚ) : String :=
  let sign := if q.num < 0 then "-" else ""
  let n := q.num.natAbs
  let ip := n / q.den
  let rem := n % q.den
  if rem = 0 then sign ++ toString ip
  else sign ++ toString ip ++ "." ++ String.mk (ratFracDigits 64 rem q.den)

mutual

/-- JavaScript `String(value)` on a JSON value. -/
def jsToString : JsonValue → String
  | .null => "null"
  | .bool true => "true"
  | .bool false => "false"
  | .num q => ratToJsString q
  | .str s => s
  | .arr elems => jsToStringItems elems
  | .obj _ => "[object Object]"
termination_by structural j => j

/-- `Array.prototype.join(',')`, with `null` elements rendered empty. -/
def jsToStringItems : List JsonValue → String
  | [] => ""
  | [x] =>
    (match x with
     | .null => ""
     | v => jsToString v)
  | x :: rest =>
    (match x with
     | .null => ""
     | v => jsToString v) ++ "," ++ jsToStringItems rest
termination_by structural l => l

end

example : jsToString (.arr [.num (mkRat 5 2), .null, .str "x"]) = "2.5,,x" := by decide

/-- Object spread `\x7b ...base, ...value \x7d`: objects contribute their
fields, strings and arrays contribute index-keyed properties, and other
primitives contribute nothing. -/
def spreadInto (base : List (String × JsonValue)) : Option JsonValue →
    List (String × JsonValue)
  | some (.obj fields) => fields.foldl (fun acc kv => upsertJ acc kv.1 kv.2) base
  | some (.str s) =>
    (mapWithIndex (fun i c => (toString i, JsonValue.str (String.mk [c]))) 0
        s.toList).foldl (fun acc kv => upsertJ acc kv.1 kv.2) base
  | some (.arr elems) =>
    (mapWithIndex (fun i v => (toString i, v)) 0 elems).foldl
      (fun acc kv => upsertJ acc kv.1 kv.2) base
  | _ => base



/-! ## The quiz data model (`shared/schema.ts`) and `server/quiz/parser.ts` -/

namespace QuizParser

/-- The four canonical question types. -/
inductive QuestionType where
  | multiple_choice
  | open_ended
  | true_false
  | fill_in_blank
deriving DecidableEq, Repr

/-- `QuizQuestion` of `shared/schema.ts`.  The source field `type` is named
`qtype` here; `id` is a JavaScript number, hence `ℚ`; the optional fields
`options` and `explanation` are `Option`s (spread in conditionally by the
source). -/
structure QuizQuestion where
  id : ℚ
  qtype : QuestionType
  text : String
  options : Option (List String)
  correctAnswer : String
  explanation : Option String
deriving DecidableEq, Repr

/-- `Quiz` of `shared/schema.ts`.  `metadata` is an open map (the JSON
path spreads arbitrary parsed fields over `generatedAt`). -/
structure Quiz where
  questions : List QuizQuestion
  metadata : Option (List (String × JsonValue))
  error : Option String
deriving DecidableEq, Repr

/-- `ParsingOptions`: all three fields optional; the destructuring defaults
(`validateQuestions = true`, `requireExplanations = false`,
`normalizeAnswers = true`) are applied inside `validateQuiz`. -/
structure ParsingOptions where
  validateQuestions : Option Bool
  requireExplanations : Option Bool
  normalizeAnswers : Option Bool
deriving DecidableEq, Repr

/-- The default options object (every field `undefined`). -/
def ParsingOptions.empty : ParsingOptions := ⟨none, none, none⟩

/-- `normalizeQuestionType`: substring matching on the lowercased type. -/
def normalizeQuestionType (t : String) : QuestionType :=
  let lowerType := toLowerS t
  if containsS lowerType "multiple" || containsS lowerType "choice" then
    .multiple_choice
  else if containsS lowerType "true" && containsS lowerType "false" then
    .true_false
  else if containsS lowerType "fill" && containsS lowerType "blank" then
    .fill_in_blank
  else
    .open_ended

/-- The evaluation of `question.type || 'open_ended'` as fed to
`normalizeQuestionType`, whose first step calls `.toLowerCase()`: a falsy
`type` falls back to `'open_ended'`, a truthy non-string `type` makes
`toLowerCase` throw a `TypeError` (caught by the JSON path's `catch`). -/
def normalizeTypeField : Option JsonValue → Except String String
  | none => .ok "open_ended"
  | some .null => .ok "open_ended"
  | some (.bool false) => .ok "open_ended"
  | some (.str s) => .ok (if s = "" then "open_ended" else s)
  | some (.bool true) => .error "type.toLowerCase is not a function"
  | some (.num q) =>
    if q = 0 then .ok "open_ended" else .error "type.toLowerCase is not a function"
  | some (.arr _) => .error "type.toLowerCase is not a function"
  | some (.obj _) => .error "type.toLowerCase is not a function"

/-- `normalizeQuestion`: `null` for a non-object or for a question whose
`text` is not a truthy string; otherwise the standardized question object.
The `Except` layer carries the `TypeError` a truthy non-string `type`
raises (see `normalizeTypeField`). -/
def normalizeQuestion (question : JsonValue) : Except String (Option QuizQuestion) :=
  match question with
  | .obj fields =>
    (match lookupJ fields "text" with
     | some (.str t) =>
       if t = "" then .ok none
       else
         match normalizeTypeField (lookupJ fields "type") with
         | .error e => .error e
         | .ok typeStr =>
           .ok (some
           { id := (match lookupJ fields "id" with
               | some (.num q) => q
               | _ => 0),
             qtype := normalizeQuestionType typeStr,
             text := jsTrimS t,
             options := (match lookupJ fields "options" with
               | some (.arr os) =>
                 if 0 < os.length then
                   some (os.map (fun o => jsTrimS (jsToString o)))
                 else none
               | _ => none),
             correctAnswer := (match lookupJ fields "correctAnswer" with
               | some (.str s) => jsTrimS s
               | _ => ""),
             explanation := (match lookupJ fields "explanation" with
               | some (.str e) => if jsTrimS e ≠ "" then some (jsTrimS e) else none
               | _ => none) })
     | _ => .ok none)
  | _ => .ok none

/-- `questions.map(normalizeQuestion)` with exception propagation: the
first thrown error aborts the map. -/
def mapME (f : α → Except ε β) : List α → Except ε (List β)
  | [] => .ok []
  | a :: rest =>
    match f a with
    | .error e => .error e
    | .ok b => (mapME f rest).map (fun bs => b :: bs)

/-- The `try` body of `parseJSONResponse`: fenced-block extraction, cleanup,
`JSON.parse`, the `questions`-array check, and question normalization.
Thrown errors surface as `.error`. -/
def parseJSONTry (now : String) (response : String) : Except String (Option Quiz) :=
  match findFencedJson response.toList with
  | none => .ok none
  | some capture =>
    match jsonParse (cleanupNearJson capture) with
    | .error e => .error e
    | .ok parsed =>
      match parsed with
      | .obj fields =>
        (match lookupJ fields "questions" with
         | some (.arr qs) =>
           (match mapME normalizeQuestion qs with
            | .error e => .error e
            | .ok mapped =>
              .ok (some
                { questions := mapped.filterMap id,
                  metadata := some (spreadInto [("generatedAt", JsonValue.str now)]
                    (lookupJ fields "metadata")),
                  error := none }))
         | _ => .ok none)
      | _ => .ok none

/-- `parseJSONResponse`: the `catch` turns any thrown error into `null`. -/
def parseJSONResponse (now : String) (response : String) : Option Quiz :=
  match parseJSONTry now response with
  | .ok v => v
  | .error _ => none

example :
    parseJSONResponse "T" "```json\n\x7b\"questions\":[\x7b\"text\":\"Hi\"\x7d]\x7d\n```" =
      some { questions := [{ id := 0, qtype := .open_ended, text := "Hi",
                             options := none, correctAnswer := "", explanation := none }],
             metadata := some [("generatedAt", JsonValue.str "T")],
             error := none } := by decide

end QuizParser

/-! ## Generic regex scanning helpers -/

/-- The capture tail `\s*([^\n]+)` shared by the labelled-line regexes:
greedy whitespace with backtracking, then a nonempty run of non-newline
characters.  When everything after the label is whitespace, the greedy
`\s*` backs off to the last non-newline whitespace character, which then
forms the capture by itself. -/
def wsCapture (cs : List Char) : Option (List Char) :=
  let run := cs.takeWhile isWsChar
  let rest := cs.drop run.length
  if rest ≠ [] then some (rest.takeWhile (fun c => c ≠ '\n'))
  else
    match run.reverse.dropWhile (fun c => c = '\n') with
    | [] => none
    | c :: _ => some [c]

/-- Leftmost-match scanning: try the pattern at every position, first
success wins (the regex engine's position loop). -/
def scanFirst (tryAt : List Char → Option α) : List Char → Option α
  | [] => tryAt []
  | c :: rest =>
    match tryAt (c :: rest) with
    | some r => some r
    | none => scanFirst tryAt rest

/-- Lazy capture `X*?` bounded by a lookahead: consume as little as
possible (at least `minLen` characters) until the lookahead holds. -/
def lazyCapture (look : List Char → Bool) (minLen : Nat) (acc : List Char) :
    List Char → Option (List Char)
  | [] => if minLen ≤ acc.length && look [] then some acc.reverse else none
  | c :: rest =>
    if minLen ≤ acc.length && look (c :: rest) then some acc.reverse
    else lazyCapture look minLen (c :: acc) rest


namespace QuizParser

/-! ### `parseMarkdownResponse` -/

/-- `/#\x7b1,3\x7d\s*Question\s+\d+/i` at the current position; returns
the remainder after the match.  With more than three leading hashes every
backtracking choice leaves a hash where whitespace or `Question` is
required, so the position fails. -/
def mdHeaderAt (cs : List Char) : Option (List Char) :=
  match cs with
  | '#' :: r1 =>
    let hashes := r1.takeWhile (fun c => c = '#')
    if 3 ≤ hashes.length then none
    else
      let r2 := (r1.drop hashes.length).dropWhile isWsChar
      match matchCI "question".toList r2 with
      | none => none
      | some r3 =>
        let w := r3.takeWhile isWsChar
        if w = [] then none
        else
          let r4 := r3.drop w.length
          let ds := r4.takeWhile isDigitChar
          if ds = [] then none else some (r4.drop ds.length)
  | _ => none

/-- `response.split(/#\x7b1,3\x7d\s*Question\s+\d+/i)`.  The fuel is the
input length plus one; every step consumes at least one character. -/
def splitMdSections (fuel : Nat) (acc : List Char) (cs : List Char) :
    List (List Char) :=
  match fuel, cs with
  | _, [] => [acc.reverse]
  | 0, rest => [acc.reverse ++ rest]
  | f + 1, c :: rest =>
    match mdHeaderAt (c :: rest) with
    | some after => acc.reverse :: splitMdSections f [] after
    | none => splitMdSections f (c :: acc) rest

/-- `/^[A-D]\.\s+/` on a (trimmed) line: capital `A`–`D` (the class is not
`i`-flagged here), a dot, then at least one whitespace character. -/
def isMdOptionLine (l : List Char) : Bool :=
  match l with
  | c :: d :: w :: _ => ('A' ≤ c && c ≤ 'D') && d = '.' && isWsChar w
  | _ => false

/-- `line.replace(/^[A-D]\.\s+/, '')`. -/
def stripMdOptionPrefix (l : List Char) : List Char :=
  if isMdOptionLine l then
    match l with
    | _ :: _ :: r => r.dropWhile isWsChar
    | _ => l
  else l

/-- The markdown answer-letter resolution: with a nonempty options list,
`/^([A-D])/i` matches a leading letter, whose index (`charCodeAt - 65`
after uppercasing) selects the option text when in range; the source also
checks `index >= 0`, which always holds for `A`–`D`. -/
def mdResolveAnswer (ca : List Char) (opts : List (List Char)) : List Char :=
  if 0 < opts.length then
    match ca with
    | c :: _ =>
      if isLetterAD c then
        let i := letterIndex c
        if i < opts.length then opts.getD i [] else ca
      else ca
    | [] => ca
  else ca

/-- `/\*\*Correct\s+Answer\*\*:\s*([^\n]+)/i` at the current position. -/
def mdCorrectAt (cs : List Char) : Option (List Char) :=
  match matchCI "**correct".toList cs with
  | none => none
  | some r1 =>
    let w := r1.takeWhile isWsChar
    if w = [] then none
    else
      match matchCI "answer**:".toList (r1.drop w.length) with
      | none => none
      | some r2 => wsCapture r2

/-- The lookahead `(?=\n\s*(?:#\x7b1,3\x7d|$))` bounding the markdown
explanation: a newline followed, across whitespace, by a hash or the end
of the string. -/
def mdExplLook (cs : List Char) : Bool :=
  match cs with
  | '\n' :: r =>
    let r2 := r.dropWhile isWsChar
    r2.isEmpty || startsWithL "#".toList r2
  | _ => false

/-- One backtracking start for the explanation capture: the first captured
character must not be a newline, then `.+?` (dot-all) runs lazily to the
lookahead. -/
def mdExplTryStart (r : List Char) (p : Nat) : Option (List Char) :=
  match r.drop p with
  | [] => none
  | c :: rest =>
    if c = '\n' then none
    else lazyCapture mdExplLook 2 [] (c :: rest)

/-- Backtracking over the greedy `\s*` before the explanation capture:
largest whitespace consumption first. -/
def mdExplStarts (r : List Char) : Nat → Option (List Char)
  | 0 => mdExplTryStart r 0
  | p + 1 =>
    match mdExplTryStart r (p + 1) with
    | some cap => some cap
    | none => mdExplStarts r p

/-- `/\*\*Explanation\*\*:\s*([^\n].+?)(?=\n\s*(?:#\x7b1,3\x7d|$))/is` at
the current position. -/
def mdExplAt (cs : List Char) : Option (List Char) :=
  match matchCI "**explanation**:".toList cs with
  | none => none
  | some r => mdExplStarts r (r.takeWhile isWsChar).length

/-- One markdown question section (the body of the source's `forEach`). -/
def mdParseSection (index : Nat) (sectionCs : List Char) : QuizQuestion :=
  let typeM := scanFirst (fun cs => (matchCI "**type**:".toList cs).bind wsCapture)
    sectionCs
  let typeStr := match typeM with
    | some cap => jsTrimS (toLowerS (String.mk cap))
    | none => "open_ended"
  let lines := (splitChar '\n' sectionCs).map jsTrim
  let qIdx : Int := match typeM with
    | some _ => jsFindIndex (fun l => containsSub l "**Type**:".toList) lines + 1
    | none => jsFindIndex (fun l => !l.isEmpty) lines
  let questionText : List Char :=
    if 0 ≤ qIdx ∧ qIdx < lines.length then lines.getD qIdx.toNat [] else []
  let options : List (List Char) :=
    if containsS typeStr "multiple" || containsS typeStr "choice" then
      (lines.filter isMdOptionLine).map (fun l => jsTrim (stripMdOptionPrefix l))
    else []
  let correctAnswer : List Char :=
    match scanFirst mdCorrectAt sectionCs with
    | none => []
    | some cap => mdResolveAnswer (jsTrim cap) options
  let explanation : List Char :=
    match scanFirst mdExplAt sectionCs with
    | none => []
    | some cap => jsTrim cap
  { id := ((index + 1 : Nat) : ℚ),
    qtype := normalizeQuestionType typeStr,
    text := String.mk questionText,
    options := if 0 < options.length then some (options.map String.mk) else none,
    correctAnswer := String.mk correctAnswer,
    explanation := if explanation.isEmpty then none else some (String.mk explanation) }

/-- `parseMarkdownResponse`: split on question headings, drop the
introduction, and build one question per section.  The body cannot throw,
so the source's `try`/`catch` is inert. -/
def parseMarkdownResponse (now response : String) : Option Quiz :=
  let questionSections :=
    splitMdSections (response.toList.length + 1) [] response.toList
  let filteredSections := questionSections.drop 1
  if filteredSections.length = 0 then none
  else some
    { questions := mapWithIndex mdParseSection 0 filteredSections,
      metadata := some [("generatedAt", JsonValue.str now)],
      error := none }

example :
    parseMarkdownResponse "T"
      "### Question 1\n**Type**: multiple_choice\nWhat is the capital?\nA. Paris\nB. London\nC. Rome\nD. Berlin\n**Correct Answer**: B\n**Explanation**: Basic geography.\n" =
    some { questions := [{ id := 1, qtype := .multiple_choice,
                           text := "What is the capital?",
                           options := some ["Paris", "London", "Rome", "Berlin"],
                           correctAnswer := "London",
                           explanation := some "Basic geography." }],
           metadata := some [("generatedAt", JsonValue.str "T")],
           error := none } := by decide

end QuizParser

namespace QuizParser

/-! ### `parseStructuredResponse` -/

/-- First index at which a predicate-matched pattern occurs
(`String.prototype.search`, as `Option`). -/
def jsSearchIdx (p : List Char → Bool) : List Char → Option Nat
  | [] => if p [] then some 0 else none
  | c :: rest =>
    if p (c :: rest) then some 0
    else (jsSearchIdx p rest).map (· + 1)

/-- `String.prototype.indexOf` for a character, `-1` when absent. -/
def jsIndexOfChar (cs : List Char) (ch : Char) : Int :=
  jsFindIndex (fun c => c = ch) cs

/-- The tail `\s*\d+\.\s*` of the question-number pattern. -/
def stQNumTail (r : List Char) : Option (List Char) :=
  let w := r.dropWhile isWsChar
  let ds := w.takeWhile isDigitChar
  if ds.isEmpty then none
  else
    match w.drop ds.length with
    | '.' :: r2 => some (r2.dropWhile isWsChar)
    | _ => none

/-- `(?:Q|Question)\s*\d+\.\s*` (ordered alternation: `Q` first, then
`Question`). -/
def stQNumAt (cs : List Char) : Option (List Char) :=
  match cs with
  | c :: r1 =>
    if ciEq c 'q' then
      match stQNumTail r1 with
      | some rest => some rest
      | none =>
        match matchCI "uestion".toList r1 with
        | none => none
        | some r2 => stQNumTail r2
    else none
  | [] => none

/-- The block separator `/\n\s*(?:Q|Question)\s*\d+\.\s*/i` at the current
position. -/
def stSplitHeaderAt (cs : List Char) : Option (List Char) :=
  match cs with
  | '\n' :: r => stQNumAt (r.dropWhile isWsChar)
  | _ => none

/-- `response.split(/\n\s*(?:Q|Question)\s*\d+\.\s*/i)`. -/
def splitStBlocks (fuel : Nat) (acc : List Char) (cs : List Char) :
    List (List Char) :=
  match fuel, cs with
  | _, [] => [acc.reverse]
  | 0, rest => [acc.reverse ++ rest]
  | f + 1, c :: rest =>
    match stSplitHeaderAt (c :: rest) with
    | some after => acc.reverse :: splitStBlocks f [] after
    | none => splitStBlocks f (c :: acc) rest

/-- The capture tail `\s*([^\]]+)\]` of the type tag: greedy whitespace
backtracks one character when the capture would otherwise be empty. -/
def stTypeCapture (r : List Char) : Option (List Char) :=
  let w := r.takeWhile isWsChar
  let rest := r.drop w.length
  let cap := rest.takeWhile (fun c => c ≠ ']')
  match rest.drop cap.length with
  | ']' :: _ =>
    if ¬ cap.isEmpty then some cap
    else
      match w.reverse with
      | c :: _ => some [c]
      | [] => none
  | _ => none

/-- `/\[(?:Question\s+)?Type:\s*([^\]]+)\]/i` at the current position
(greedy optional `Question` prefix, with fallback). -/
def stTypeTagAt (cs : List Char) : Option (List Char) :=
  match cs with
  | '[' :: r1 =>
    let withQ :=
      match matchCI "question".toList r1 with
      | none => none
      | some r2 =>
        let w := r2.takeWhile isWsChar
        if w.isEmpty then none
        else matchCI "type:".toList (r2.drop w.length)
    (match withQ with
     | some r => stTypeCapture r
     | none =>
       match matchCI "type:".toList r1 with
       | some r => stTypeCapture r
       | none => none)
  | _ => none

/-- The question-text boundary
`/\n\s*(?:Options|[A-D]\.|\([a-d]\)|[a-d]\))/i` as a position predicate. -/
def stBreakAt (cs : List Char) : Bool :=
  match cs with
  | '\n' :: r =>
    let w := r.dropWhile isWsChar
    startsWithCI "options".toList w ||
    (match w with
     | a :: '.' :: _ => isLetterAD a
     | _ => false) ||
    (match w with
     | '(' :: l :: ')' :: _ => isLetterAD l
     | _ => false) ||
    (match w with
     | l :: ')' :: _ => isLetterAD l
     | _ => false)
  | _ => false

/-- The opening alternation of the options-section regex
`(?:Options|\n\s*[A-D]\.|\n\s*\([a-d]\)|\n\s*[a-d]\))`; returns the
remainder after the consumed marker. -/
def stOptHeadAt (cs : List Char) : Option (List Char) :=
  match matchCI "options".toList cs with
  | some r => some r
  | none =>
    match cs with
    | '\n' :: r =>
      let w := r.dropWhile isWsChar
      let alt2 := match w with
        | a :: '.' :: rest => if isLetterAD a then some rest else none
        | _ => none
      let alt3 := match w with
        | '(' :: l :: ')' :: rest => if isLetterAD l then some rest else none
        | _ => none
      let alt4 := match w with
        | l :: ')' :: rest => if isLetterAD l then some rest else none
        | _ => none
      alt2 <|> alt3 <|> alt4
    | _ => none

/-- The lookahead `(?=\nCorrect Answer|\nAnswer|$)` bounding the options
section. -/
def stOptLook (cs : List Char) : Bool :=
  cs.isEmpty || startsWithCI "\ncorrect answer".toList cs ||
    startsWithCI "\nanswer".toList cs

/-- The options-section pattern at the current position: marker, then a
lazy capture up to the lookahead. -/
def stOptSectionAt (cs : List Char) : Option (List Char) :=
  (stOptHeadAt cs).bind (lazyCapture stOptLook 0 [])

/-- Unanchored `\([a-d]\)` occurrence (case-insensitive). -/
def stContainsParen : List Char → Bool
  | [] => false
  | '(' :: l :: ')' :: rest => isLetterAD l || stContainsParen (l :: ')' :: rest)
  | _ :: rest => stContainsParen rest

/-- Unanchored `[a-d]\)` occurrence (case-insensitive). -/
def stContainsLetterParen : List Char → Bool
  | [] => false
  | l :: ')' :: rest => isLetterAD l || stContainsLetterParen (')' :: rest)
  | _ :: rest => stContainsLetterParen rest

/-- Unanchored `\s+[A-D]\.` occurrence (whitespace, letter, dot). -/
def stContainsWsLetterDot : List Char → Bool
  | [] => false
  | w :: l :: '.' :: rest =>
    (isWsChar w && isLetterAD l) || stContainsWsLetterDot (l :: '.' :: rest)
  | _ :: rest => stContainsWsLetterDot rest

/-- The option-line filter
`/^[A-D]\.|\([a-d]\)|[a-d]\)|^[a-d]\)|\s+[A-D]\./i.test(line.trim())`. -/
def stOptLineTest (l : List Char) : Bool :=
  let t := jsTrim l
  (match t with
   | a :: '.' :: _ => isLetterAD a
   | _ => false) ||
  stContainsParen t || stContainsLetterParen t ||
  (match t with
   | a :: ')' :: _ => isLetterAD a
   | _ => false) ||
  stContainsWsLetterDot t

/-- One alternative of the marker-removal regex
`/^[A-D]\.|\([a-d]\)|[a-d]\)|\s+[A-D]\./i` at the current position; the
result is the length of the matched marker. -/
def stRemoveMarkerAt (atStart : Bool) (cs : List Char) : Option Nat :=
  let alt1 := if atStart then
      (match cs with
       | a :: '.' :: _ => if isLetterAD a then some 2 else none
       | _ => none)
    else none
  let alt2 := match cs with
    | '(' :: l :: ')' :: _ => if isLetterAD l then some 3 else none
    | _ => none
  let alt3 := match cs with
    | l :: ')' :: _ => if isLetterAD l then some 2 else none
    | _ => none
  let alt4 :=
    let w := cs.takeWhile isWsChar
    if w.isEmpty then none
    else match cs.drop w.length with
      | l :: '.' :: _ => if isLetterAD l then some (w.length + 2) else none
      | _ => none
  alt1 <|> alt2 <|> alt3 <|> alt4

/-- `line.replace(/^[A-D]\.|\([a-d]\)|[a-d]\)|\s+[A-D]\./i, '')`: remove
the leftmost marker occurrence, if any. -/
def stRemoveMarkerGo (atStart : Bool) : List Char → List Char
  | [] => []
  | c :: rest =>
    match stRemoveMarkerAt atStart (c :: rest) with
    | some k => (c :: rest).drop k
    | none => c :: stRemoveMarkerGo false rest

/-- An answer string that is exactly one letter `A`–`D`
(`/^[A-D]$/i.test`). -/
def isSingleLetterAD (ca : List Char) : Bool :=
  match ca with
  | [c] => isLetterAD c
  | _ => false

/-- The structured-format answer-letter resolution (source lines 219-226):
with a nonempty options list and a single-letter answer, the letter index
(`charCodeAt - 65` after uppercasing) selects the option text when in
range; the source's `index >= 0` conjunct always holds for `A`–`D`. -/
def stResolveAnswer (ca : List Char) (opts : List (List Char)) : List Char :=
  if 0 < opts.length && isSingleLetterAD ca then
    let i := letterIndex (ca.headD 'A')
    if i < opts.length then opts.getD i [] else ca
  else ca

/-- `/(?:Correct\s+Answer|Answer):\s*([^\n]+)/i` at the current position. -/
def stCorrectAt (cs : List Char) : Option (List Char) :=
  let label :=
    (match matchCI "correct".toList cs with
     | some r1 =>
       let w := r1.takeWhile isWsChar
       if w.isEmpty then none
       else matchCI "answer".toList (r1.drop w.length)
     | none => none) <|> matchCI "answer".toList cs
  match label with
  | some (':' :: r2) => wsCapture r2
  | _ => none

/-- The lookahead `(?=\n\s*(?:Q|Question)\s*\d+\.?|$)` bounding the
structured explanation. -/
def stExplLook (cs : List Char) : Bool :=
  cs.isEmpty ||
  (match cs with
   | '\n' :: r =>
     (match r.dropWhile isWsChar with
      | c :: r1 =>
        ciEq c 'q' &&
          ((match r1.dropWhile isWsChar with
            | d :: _ => isDigitChar d
            | [] => false) ||
           (match matchCI "uestion".toList r1 with
            | some r2 =>
              (match r2.dropWhile isWsChar with
               | d :: _ => isDigitChar d
               | [] => false)
            | none => false))
      | [] => false)
   | _ => false)

/-- One backtracking start for the structured explanation capture
(`[^\n].*?`, minimum one character). -/
def stExplTryStart (r : List Char) (p : Nat) : Option (List Char) :=
  match r.drop p with
  | [] => none
  | c :: rest =>
    if c = '\n' then none
    else lazyCapture stExplLook 1 [] (c :: rest)

/-- Backtracking over the greedy `\s*` before the structured explanation
capture. -/
def stExplStarts (r : List Char) : Nat → Option (List Char)
  | 0 => stExplTryStart r 0
  | p + 1 =>
    match stExplTryStart r (p + 1) with
    | some cap => some cap
    | none => stExplStarts r p

/-- `/(?:Explanation|Rationale):\s*([^\n].*?)(?=\n\s*(?:Q|Question)\s*\d+\.?|$)/is`
at the current position. -/
def stExplAt (cs : List Char) : Option (List Char) :=
  match matchCI "explanation:".toList cs <|> matchCI "rationale:".toList cs with
  | none => none
  | some r => stExplStarts r (r.takeWhile isWsChar).length

/-- One structured-format question block (the body of the source's `for`
loop); `qid` is `i - startIndex + 1`. -/
def stParseBlock (qid : Nat) (block : List Char) : QuizQuestion :=
  let typeM := scanFirst stTypeTagAt block
  let typeStr := match typeM with
    | some cap => jsTrimS (toLowerS (String.mk cap))
    | none => "open_ended"
  let questionText : List Char :=
    match typeM with
    | some _ =>
      let afterType := jsTrim (block.drop (jsIndexOfChar block ']' + 1).toNat)
      let firstBreak : Int := match jsSearchIdx stBreakAt afterType with
        | some k => k
        | none => -1
      if 0 < firstBreak then jsTrim (afterType.take firstBreak.toNat)
      else jsTrim ((splitChar '\n' afterType).getD 0 [])
    | none => jsTrim ((splitChar '\n' block).getD 0 [])
  let options : List (List Char) :=
    if containsS typeStr "multiple" || containsS typeStr "choice" then
      match scanFirst stOptSectionAt block with
      | some sec =>
        ((splitChar '\n' sec).filter stOptLineTest).filterMap (fun l =>
          let o := jsTrim (stRemoveMarkerGo true l)
          if o.isEmpty then none else some o)
      | none => []
    else []
  let correctAnswer : List Char :=
    match scanFirst stCorrectAt block with
    | none => []
    | some cap => stResolveAnswer (jsTrim cap) options
  let explanation : List Char :=
    match scanFirst stExplAt block with
    | none => []
    | some cap => jsTrim cap
  { id := ((qid : Nat) : ℚ),
    qtype := normalizeQuestionType typeStr,
    text := String.mk questionText,
    options := if 0 < options.length then some (options.map String.mk) else none,
    correctAnswer := String.mk correctAnswer,
    explanation := if explanation.isEmpty then none else some (String.mk explanation) }

/-- `parseStructuredResponse`: split on `Q<N>.` markers, keep the leading
block when it is nonblank, skip blank blocks (`continue`), and return
`null` when no question was produced.  The body cannot throw. -/
def parseStructuredResponse (now response : String) : Option Quiz :=
  let questionBlocks :=
    splitStBlocks (response.toList.length + 1) [] response.toList
  let startIndex : Nat := if ¬ (jsTrim (questionBlocks.headD [])).isEmpty then 0 else 1
  let questions :=
    (mapWithIndex (fun rel b =>
        let block := jsTrim b
        if block.isEmpty then none
        else some (stParseBlock (rel + 1) block)) 0
      (questionBlocks.drop startIndex)).filterMap id
  if 0 < questions.length then
    some { questions := questions,
           metadata := some [("generatedAt", JsonValue.str now)],
           error := none }
  else none

example :
    parseStructuredResponse "T"
      "\nQ1. [Type: Multiple Choice] Which planet is red?\nOptions:\nA. Mars\nB. Venus\nCorrect Answer: A\nExplanation: Mars is red.\n" =
    some { questions := [{ id := 1, qtype := .multiple_choice,
                           text := "Which planet is red?",
                           options := some ["Mars", "Venus"],
                           correctAnswer := "Mars",
                           explanation := some "Mars is red." }],
           metadata := some [("generatedAt", JsonValue.str "T")],
           error := none } := by decide

end QuizParser

namespace QuizParser

/-! ### `validateQuiz` and `parseQuizResponse` -/

/-- `quiz.metadata || \x7b generatedAt: new Date().toISOString() \x7d`. -/
def metaOrNow (now : String) (m : Option (List (String × JsonValue))) :
    Option (List (String × JsonValue)) :=
  match m with
  | some x => some x
  | none => some [("generatedAt", JsonValue.str now)]

/-- The number of options of a question (`0` when absent), matching the
source check `!q.options || !Array.isArray(q.options) || q.options.length`. -/
def optionsLen (q : QuizQuestion) : Nat :=
  match q.options with
  | some os => os.length
  | none => 0

/-- The body of `validateQuiz`'s `.map((q, index) => ...)`, returning
`null` (`none`) for a dropped question:

* a falsy or non-numeric `id` is replaced by `index + 1` (after
  normalization `id` is a number, so falsy means `0`);
* the type re-normalization branch is unreachable here because every
  embedded question already carries one of the four canonical types;
* a `multiple_choice` question with fewer than two options is dropped;
* a `true_false` answer is canonicalized to `"True"`/`"False"` when
  `normalizeAnswers` (default `true`) holds;
* with `requireExplanations` (default `false`), a question with a missing
  or blank explanation is dropped.

`explanationBlank` is the test
`!q.explanation || q.explanation.trim().length === 0`. -/
def explanationBlank (q : QuizQuestion) : Bool :=
  match q.explanation with
  | none => true
  | some e => jsTrimS e = ""

/-- The id fix `if (!q.id || typeof q.id !== 'number') q.id = index + 1`
(after normalization `id` is always a number, so falsy means `0`). -/
def fixId (index : Nat) (q : QuizQuestion) : QuizQuestion :=
  if q.id = 0 then { q with id := ((index + 1 : Nat) : ℚ) } else q

/-- The true/false canonicalization
`q.correctAnswer = q.correctAnswer.toLowerCase().includes('true') ? 'True' : 'False'`,
applied when `normalizeAnswers` (default `true`) holds. -/
def fixTrueFalse (options : ParsingOptions) (q : QuizQuestion) : QuizQuestion :=
  if q.qtype = QuestionType.true_false ∧ options.normalizeAnswers.getD true then
    { q with correctAnswer :=
        if containsS (toLowerS q.correctAnswer) "true" then "True" else "False" }
  else q

/-- See the doc comment above `validateQuiz`. -/
def validateQuestion (options : ParsingOptions) (index : Nat) (q : QuizQuestion) :
    Option QuizQuestion :=
  let q1 := fixId index q
  if q1.qtype = QuestionType.multiple_choice ∧ optionsLen q1 < 2 then none
  else
    let q2 := fixTrueFalse options q1
    if options.requireExplanations.getD false && explanationBlank q2 then none
    else some q2

/-- `validateQuiz`.  The source's defensive `missing questions array`
branch is unrepresentable here (`questions` is a total list), so the
embedded function starts at the `validateQuestions` check. -/
def validateQuiz (now : String) (quiz : Quiz) (options : ParsingOptions) : Quiz :=
  if options.validateQuestions.getD true = false then quiz
  else
    let validQuestions :=
      (mapWithIndex (validateQuestion options) 0 quiz.questions).filterMap id
    if validQuestions.length = 0 then
      { questions := [],
        metadata := metaOrNow now quiz.metadata,
        error := some "No valid questions found after validation" }
    else
      { questions := validQuestions,
        metadata := metaOrNow now quiz.metadata,
        error := none }

/-- The all-formats-failed result of `parseQuizResponse`. -/
def quizParseFailure (now : String) : Quiz :=
  { questions := [],
    metadata := some [("generatedAt", JsonValue.str now)],
    error := some "Failed to parse quiz response into a structured format" }

/-- The structured-text step of `parseQuizResponse` (third early return). -/
def parseQuizResponseStStep (now response : String) (options : ParsingOptions) : Quiz :=
  match parseStructuredResponse now response with
  | some q =>
    if 0 < q.questions.length then validateQuiz now q options
    else quizParseFailure now
  | none => quizParseFailure now

/-- The markdown step of `parseQuizResponse` (second early return). -/
def parseQuizResponseMdStep (now response : String) (options : ParsingOptions) : Quiz :=
  match parseMarkdownResponse now response with
  | some q =>
    if 0 < q.questions.length then validateQuiz now q options
    else parseQuizResponseStStep now response options
  | none => parseQuizResponseStStep now response options

/-- `parseQuizResponse`: try JSON, then markdown, then structured text, in
that order, accepting the first parse with at least one question; validate
the accepted quiz; and fall back to the empty-with-error quiz. -/
def parseQuizResponse (now response : String) (options : ParsingOptions) : Quiz :=
  match parseJSONResponse now response with
  | some q =>
    if 0 < q.questions.length then validateQuiz now q options
    else parseQuizResponseMdStep now response options
  | none => parseQuizResponseMdStep now response options

example :
    parseQuizResponse "T" "" ParsingOptions.empty = quizParseFailure "T" := by
  decide

-- A nonblank response without any recognized marker becomes a single
-- open-ended structured-text question consisting of its first line.
example :
    (parseQuizResponse "T" "no quiz here" ParsingOptions.empty).questions =
      [{ id := 1, qtype := .open_ended, text := "no quiz here", options := none,
         correctAnswer := "", explanation := none }] := by decide

example :
    (parseQuizResponse "T"
        "```json\n\x7b\"questions\":[\x7b\"text\":\"Hi\",\"id\":7\x7d]\x7d\n```"
        ParsingOptions.empty).questions =
      [{ id := 7, qtype := .open_ended, text := "Hi", options := none,
         correctAnswer := "", explanation := none }] := by decide

end QuizParser

/-! ## The response-evaluation service -/

namespace EvalService

/-- `scores` of `EvaluationResult`.  `criteria` is typed
`Record<string, number>` but the validator passes any truthy value
through unchanged, so it is modelled as a JSON value (`\x7b\x7d` is
`.obj []`). -/
structure EvalScores where
  overall : ℚ
  criteria : JsonValue
deriving DecidableEq, Repr

/-- `feedback` of `EvaluationResult`.  The array fields are typed
`string[]` but the validator keeps whatever array elements the model
produced, so they are JSON values. -/
structure EvalFeedback where
  strengths : List JsonValue
  improvements : List JsonValue
  misconceptions : List JsonValue
  summary : String
deriving DecidableEq, Repr

/-- `EvaluationResult` of the response-evaluation service. -/
structure EvaluationResult where
  scores : EvalScores
  feedback : EvalFeedback
  missingElements : List JsonValue
  explanation : String
  raw : Option JsonValue
deriving DecidableEq, Repr

/-- `value || \x7b\x7d` for the `criteria` field. -/
def jsOrEmptyObj (v : Option JsonValue) : JsonValue :=
  match v with
  | some x => if jsTruthy x then x else .obj []
  | none => .obj []

/-- `validateEvaluationResult`: the unconditional shape-coercion pass.
Every field is rebuilt: numbers default to `0`, arrays to `[]`, strings to
`""`, `criteria` to `\x7b\x7d`; `raw` is passed through unchecked. -/
def validateEvaluationResult (result : JsonValue) : EvaluationResult :=
  { scores :=
      { overall := (match jGet2 result "scores" "overall" with
          | some (.num q) => q
          | _ => 0),
        criteria := jsOrEmptyObj (jGet2 result "scores" "criteria") },
    feedback :=
      { strengths := (match jGet2 result "feedback" "strengths" with
          | some (.arr a) => a
          | _ => []),
        improvements := (match jGet2 result "feedback" "improvements" with
          | some (.arr a) => a
          | _ => []),
        misconceptions := (match jGet2 result "feedback" "misconceptions" with
          | some (.arr a) => a
          | _ => []),
        summary := (match jGet2 result "feedback" "summary" with
          | some (.str s) => s
          | _ => "") },
    missingElements := (match jGet result "missingElements" with
      | some (.arr a) => a
      | _ => []),
    explanation := (match jGet result "explanation" with
      | some (.str s) => s
      | _ => ""),
    raw := jGet result "raw" }

/-! ### `extractStructuredEvaluation` -/

/-- The score tail `:\s*(\d+(?:\.\d+)?)\s*(?:\/|\s*out of\s*)\s*10` after
a label (the colon consumed by the caller): capture a decimal number
(`parseFloat` of which is its exact decimal value), then a slash or the
literal `out of`, then the literal `10`.  Returns the value and the
remainder after the match. -/
def scoreTail (r : List Char) : Option (ℚ × List Char) :=
  let r1 := r.dropWhile isWsChar
  let ds := r1.takeWhile isDigitChar
  if ds.isEmpty then none
  else
    let r2 := r1.drop ds.length
    let (fs, r3) : List Char × List Char := match r2 with
      | '.' :: rf =>
        let fds := rf.takeWhile isDigitChar
        if fds.isEmpty then ([], r2) else (fds, rf.drop fds.length)
      | _ => ([], r2)
    let value : ℚ :=
      mkRat (digitsToNat ds * 10 ^ fs.length + digitsToNat fs) (10 ^ fs.length)
    let w := r3.dropWhile isWsChar
    let afterSep : Option (List Char) := match w with
      | '/' :: r4 => some r4
      | _ => matchCI "out of".toList w
    match afterSep with
    | none => none
    | some r5 =>
      let r6 := r5.dropWhile isWsChar
      match matchLit "10".toList r6 with
      | some r7 => some (value, r7)
      | none => none

/-- `/Overall:\s*(\d+(?:\.\d+)?)\s*(?:\/|\s*out of\s*)\s*10/i` at the
current position. -/
def overallAt (cs : List Char) : Option (ℚ × List Char) :=
  (matchCI "overall:".toList cs).bind scoreTail

/-- One match of the global criteria regex
`/([A-Za-z_]+):\s*(\d+(?:\.\d+)?)\s*(?:\/|\s*out of\s*)\s*10/g` at the
current position. -/
def criterionAt (cs : List Char) : Option (String × ℚ × List Char) :=
  let letters := cs.takeWhile (fun c => isAsciiLetter c || c = '_')
  if letters.isEmpty then none
  else
    match cs.drop letters.length with
    | ':' :: r => (scoreTail r).map (fun p => (String.mk letters, p.1, p.2))
    | _ => none

/-- Insert or overwrite a criterion score (`criteriaScores[criterion] = x`). -/
def upsertScore (scores : List (String × ℚ)) (key : String) (v : ℚ) :
    List (String × ℚ) :=
  match scores with
  | [] => [(key, v)]
  | (k, w) :: rest =>
    if k = key then (k, v) :: rest else (k, w) :: upsertScore rest key v

/-- The `while (scoreRegex.exec(...))` loop: collect every match, lowercase
and trim the label, and skip the literal `overall`.  Scanning resumes at
the end of each match. -/
def criteriaScanGo (fuel : Nat) (acc : List (String × ℚ)) (cs : List Char) :
    List (String × ℚ) :=
  match fuel, cs with
  | _, [] => acc
  | 0, _ => acc
  | f + 1, c :: rest =>
    match criterionAt (c :: rest) with
    | some (name, score, after) =>
      let criterion := jsTrimS (toLowerS name)
      if criterion = "overall" then criteriaScanGo f acc after
      else criteriaScanGo f (upsertScore acc criterion score) after
    | none => criteriaScanGo f acc rest

/-- The lookahead ending a feedback section: one of the terminator labels
or the end of the string. -/
def sectionLook (terms : List (List Char)) (cs : List Char) : Bool :=
  cs.isEmpty || terms.any (fun t => startsWithCI t cs)

/-- A lazily captured section
`/(?:L1|L2)([\s\S]*?)(?:T1|...|$)/i`: the leftmost label occurrence
followed by the shortest capture reaching a terminator or the end. -/
def scanSection (labels terms : List String) (response : List Char) :
    Option (List Char) :=
  scanFirst (fun cs =>
    ((labels.map String.toList).foldl (fun acc l => acc <|> matchCI l cs)
        none).bind
      (lazyCapture (sectionLook (terms.map String.toList)) 0 []))
    response

/-- One match of the bullet separator
`/(?:\r?\n|^)\s*(?:[-•*]|\d+\.)\s*/` at the current position (`first` is
true only at index 0, where the zero-width `^` alternative applies);
returns the match length. -/
def bulletMarkerAt (first : Bool) (cs : List Char) : Option Nat :=
  let head : Option Nat := match cs with
    | '\r' :: '\n' :: _ => some 2
    | '\n' :: _ => some 1
    | _ => if first then some 0 else none
  match head with
  | none => none
  | some h =>
    let r1 := cs.drop h
    let w1 := (r1.takeWhile isWsChar).length
    let r2 := r1.drop w1
    let marker : Option Nat := match r2 with
      | '-' :: _ => some 1
      | '•' :: _ => some 1
      | '*' :: _ => some 1
      | _ =>
        let ds := r2.takeWhile isDigitChar
        if ds.isEmpty then none
        else match r2.drop ds.length with
          | '.' :: _ => some (ds.length + 1)
          | _ => none
    match marker with
    | none => none
    | some m =>
      let r3 := r2.drop m
      some (h + w1 + m + (r3.takeWhile isWsChar).length)

/-- `text.split(/(?:\r?\n|^)\s*(?:[-•*]|\d+\.)\s*/)`. -/
def splitBulletsGo (fuel : Nat) (first : Bool) (acc : List Char)
    (cs : List Char) : List (List Char) :=
  match fuel, cs with
  | _, [] => [acc.reverse]
  | 0, rest => [acc.reverse ++ rest]
  | f + 1, c :: rest =>
    match bulletMarkerAt first (c :: rest) with
    | some k => acc.reverse :: splitBulletsGo f false [] ((c :: rest).drop k)
    | none => splitBulletsGo f false (c :: acc) rest

/-- `extractBulletPoints`: split on bullet markers, trim, drop blanks. -/
def extractBulletPoints (text : List Char) : List (List Char) :=
  if text.isEmpty then []
  else
    ((splitBulletsGo (text.length + 1) true [] text).map jsTrim).filter
      (fun p => !p.isEmpty)

/-- `extractStructuredEvaluation`: heuristic extraction from a non-JSON
response.  Returns `null` when neither an overall score nor any criterion
score was found.  `raw` is attached by the caller. -/
def extractStructuredEvaluation (response : String) : Option EvaluationResult :=
  let cs := response.toList
  let overallM := scanFirst overallAt cs
  let overallScore : ℚ := match overallM with
    | some p => p.1
    | none => 0
  let criteriaScores := criteriaScanGo (cs.length + 1) [] cs
  let strengths := match scanSection ["strengths", "strengths:"]
      ["areas for improvement", "improvements", "misconceptions",
        "missing elements"] cs with
    | some sec => extractBulletPoints sec
    | none => []
  let improvements := match scanSection ["areas for improvement", "improvements:"]
      ["misconceptions", "missing elements", "explanation"] cs with
    | some sec => extractBulletPoints sec
    | none => []
  let misconceptions := match scanSection ["misconceptions:"]
      ["missing elements", "explanation"] cs with
    | some sec => extractBulletPoints sec
    | none => []
  let missingElements := match scanSection ["missing elements:"]
      ["explanation"] cs with
    | some sec => extractBulletPoints sec
    | none => []
  let explanation := match scanSection ["explanation:"] [] cs with
    | some sec => jsTrim sec
    | none => []
  if overallM = none ∧ criteriaScores = [] then none
  else some
    { scores :=
        { overall := overallScore,
          criteria := .obj (criteriaScores.map (fun p => (p.1, JsonValue.num p.2))) },
      feedback :=
        { strengths := strengths.map (fun p => JsonValue.str (String.mk p)),
          improvements := improvements.map (fun p => JsonValue.str (String.mk p)),
          misconceptions := misconceptions.map (fun p => JsonValue.str (String.mk p)),
          summary := String.mk (explanation.take 200) },
      missingElements := missingElements.map (fun p => JsonValue.str (String.mk p)),
      explanation := String.mk explanation,
      raw := none }

/-- The fixed minimal-but-valid fallback result. -/
def fallbackEvaluation (response : String) : EvaluationResult :=
  { scores := { overall := 0, criteria := .obj [] },
    feedback :=
      { strengths := [],
        improvements := [.str "Could not parse evaluation"],
        misconceptions := [],
        summary := "Unable to process the evaluation" },
    missingElements := [],
    explanation := "The system encountered an error processing the evaluation",
    raw := some (.str response) }

/-- `parsedJson.raw = response` (the parse of a brace capture is always an
object, so the non-object arm is unreachable). -/
def jsSetRaw (j : JsonValue) (response : String) : JsonValue :=
  match j with
  | .obj fields => .obj (upsertJ fields "raw" (.str response))
  | other => other

/-- The `try` body of `parseEvaluationResponse`: fenced JSON first (its
`JSON.parse` failure throws), then structured extraction, then the
fallback. -/
def parseEvaluationTry (response : String) : Except String EvaluationResult :=
  match findFencedJson response.toList with
  | some capture =>
    let cleanJson := cleanupNearJson capture
    match jsonParse cleanJson with
    | .error e => .error e
    | .ok parsedJson => .ok (validateEvaluationResult (jsSetRaw parsedJson response))
  | none =>
    match extractStructuredEvaluation response with
    | some parsedResult => .ok { parsedResult with raw := some (.str response) }
    | none => .ok (fallbackEvaluation response)

/-- `parseEvaluationResponse`: the `catch` rethrows every error raised in
the body, prefixed with `Failed to parse evaluation response:`. -/
def parseEvaluationResponse (response : String) : Except String EvaluationResult :=
  match parseEvaluationTry response with
  | .ok r => .ok r
  | .error e => .error ("Failed to parse evaluation response: " ++ e)

example :
    parseEvaluationResponse "```json\n\x7b\"scores\":\x7b\"overall\":7\x7d\x7d\n```" =
      .ok { scores := { overall := 7, criteria := .obj [] },
            feedback := { strengths := [], improvements := [], misconceptions := [],
                          summary := "" },
            missingElements := [],
            explanation := "",
            raw := some (.str "```json\n\x7b\"scores\":\x7b\"overall\":7\x7d\x7d\n```") } := by
  decide

example :
    (parseEvaluationResponse "```json\n\x7bbad\x7d\n```").isOk = false := by decide

-- Note the faithful quirk: the strengths capture runs to the end of the
-- string (`Explanation` is not one of its terminators), and the leading
-- colon (the label alternation can match without it) becomes a bullet.
example :
    (parseEvaluationResponse
        "Overall: 8/10\nClarity: 7/10\nStrengths:\n- good detail\nExplanation: solid answer").map
      (fun r => (r.scores.overall, r.scores.criteria, r.feedback.strengths,
        r.explanation)) =
    .ok (8, .obj [("clarity", JsonValue.num 7)],
      [.str ":", .str "good detail\nExplanation: solid answer"],
      "solid answer") := by decide

end EvalService

/-! ## The content preprocessor -/

namespace Preprocessing

/-- `MAX_CONTENT_TOKENS`. -/
def MAX_CONTENT_TOKENS : ℤ := 200000

/-- `TOKENS_PER_CHAR = 0.25` (exactly `1/4`). -/
def TOKENS_PER_CHAR : ℚ := mkRat 1 4

/-- The preprocessor's `estimateTokenCount`:
`Math.ceil(charCount * TOKENS_PER_CHAR)` behind a falsy-input guard.
Multiplying a character count below `2^51` by `0.25` is exact in double
arithmetic, so the rational model is faithful. -/
def estimateTokenCount (text : String) : ℤ :=
  if text.isEmpty then 0 else ⌈(text.length : ℚ) * TOKENS_PER_CHAR⌉

/-- `PreprocessingOptions` (all fields optional; defaults applied at the
destructuring sites). -/
structure PreprocessingOptions where
  maxTokens : Option ℤ
  preserveHeadings : Option Bool
  extractKeyTerms : Option Bool
  summarizeLongSections : Option Bool
deriving DecidableEq, Repr

/-- `replace(/\s+/g, ' ')`: collapse whitespace runs to single spaces. -/
def collapseWsGo (prevWs : Bool) : List Char → List Char
  | [] => []
  | c :: rest =>
    if isWsChar c then
      if prevWs then collapseWsGo true rest
      else ' ' :: collapseWsGo true rest
    else c :: collapseWsGo false rest

/-- First index of a case-sensitive literal occurrence. -/
def findSubL (needle : List Char) : List Char → Option Nat
  | [] => if needle.isEmpty then some 0 else none
  | c :: rest =>
    if startsWithL needle (c :: rest) then some 0
    else (findSubL needle rest).map (· + 1)

/-- An opening `<tag` with the `\b` boundary (the next character, if any,
is not a word character). -/
def elemOpenAt (tag : List Char) (cs : List Char) : Option (List Char) :=
  match matchCI ('<' :: tag) cs with
  | none => none
  | some r =>
    match r with
    | [] => some []
    | c :: _ => if isWordChar c then none else some r

/-- `replace(/<tag\b[^<]*(?:(?!<\/tag>)<[^<]*)*<\/tag>/gi, '')`: erase from
each properly opened `<tag` through the first subsequent `</tag>`; an
unclosed element does not match. -/
def removeElemGo (tag close : List Char) (fuel : Nat) (cs : List Char) :
    List Char :=
  match fuel, cs with
  | _, [] => []
  | 0, rest => rest
  | f + 1, c :: rest =>
    match elemOpenAt tag (c :: rest) with
    | some after =>
      (match findSubCI close after with
       | some k => removeElemGo tag close f (after.drop (k + close.length))
       | none => c :: removeElemGo tag close f rest)
    | none => c :: removeElemGo tag close f rest

/-- `replace(/<!--[\s\S]*?-->/g, '')`. -/
def removeCommentsGo (fuel : Nat) (cs : List Char) : List Char :=
  match fuel, cs with
  | _, [] => []
  | 0, rest => rest
  | f + 1, c :: rest =>
    match matchLit "<!--".toList (c :: rest) with
    | some after =>
      (match findSubL "-->".toList after with
       | some k => removeCommentsGo f (after.drop (k + 3))
       | none => c :: removeCommentsGo f rest)
    | none => c :: removeCommentsGo f rest

/-- `replace(/<\/?[^>]+(>|$)/g, '')`: a `<` followed by at least one
non-`>` character, closed by `>` or the end of the string (the optional
slash folds into the `[^>]+` run). -/
def removeTagsGo (fuel : Nat) (cs : List Char) : List Char :=
  match fuel, cs with
  | _, [] => []
  | 0, rest => rest
  | f + 1, '<' :: rest =>
    let run := rest.takeWhile (fun c => c ≠ '>')
    if run.isEmpty then '<' :: removeTagsGo f rest
    else removeTagsGo f ((rest.drop run.length).drop 1)
  | f + 1, c :: rest => c :: removeTagsGo f rest

/-- `cleanContent`: collapse whitespace, strip script/style elements, HTML
comments and remaining tags, collapse again, and trim. -/
def cleanContent (content : String) : String :=
  if content.isEmpty then ""
  else
    let c1 := collapseWsGo false content.toList
    let c2 := removeElemGo "script".toList "</script>".toList (c1.length + 1) c1
    let c3 := removeElemGo "style".toList "</style>".toList (c2.length + 1) c2
    let c4 := removeCommentsGo (c3.length + 1) c3
    let c5 := removeTagsGo (c4.length + 1) c4
    String.mk (jsTrim (collapseWsGo false c5))

example : cleanContent "a  b" = "a b" := by decide
example : cleanContent " x <b>y</b> <script>z</script> " = "x y" := by decide

/-- The largest index whose character is not a newline. -/
def lastIdxNotNl (l : List Char) : Option Nat :=
  let t := (l.reverse.takeWhile (fun c => c = '\n')).length
  if t = l.length then none else some (l.length - t - 1)

/-- Inside a whitespace run following a newline, the length consumed by
`\s*\n` (greedy `\s*` backtracking to the last newline of the run). -/
def nlInRunLen (w : List Char) : Option Nat :=
  if w.contains '\n' then
    some (w.length - (w.reverse.takeWhile (fun c => c ≠ '\n')).length)
  else none

/-- `\s*#\x7b1,3\x7d\s+[^\n]+` after a leading newline (the heading
alternative of the section-delimiter regex); returns the consumed length
past the newline. -/
def sectionHeadingDelimLen (r : List Char) : Option Nat :=
  let w := r.takeWhile isWsChar
  match r.drop w.length with
  | '#' :: hr =>
    let hashes := (hr.takeWhile (fun c => c = '#')).length + 1
    if 3 < hashes then none
    else
      let r2 := hr.drop (hashes - 1)
      let w2 := r2.takeWhile isWsChar
      if w2.isEmpty then none
      else
        let after := r2.drop w2.length
        if ¬ after.isEmpty then
          some (w.length + hashes + w2.length +
            (after.takeWhile (fun c => c ≠ '\n')).length)
        else
          match lastIdxNotNl w2 with
          | some p =>
            if 1 ≤ p then
              some (w.length + hashes + p +
                ((w2.drop p).takeWhile (fun c => c ≠ '\n')).length)
            else none
          | none => none
  | _ => none

/-- One match of `/\n\s*#\x7b1,3\x7d\s+[^\n]+|\n\s*\n/g` at the current
position; returns the match length. -/
def sectionDelimAt (cs : List Char) : Option Nat :=
  match cs with
  | '\n' :: r =>
    (match sectionHeadingDelimLen r with
     | some k => some (1 + k)
     | none => (nlInRunLen (r.takeWhile isWsChar)).map (1 + ·))
  | _ => none

/-- One match of the paragraph separator `/\n\s*\n/` at the current
position. -/
def splitParasAt (cs : List Char) : Option Nat :=
  match cs with
  | '\n' :: r => (nlInRunLen (r.takeWhile isWsChar)).map (1 + ·)
  | _ => none

/-- Generic `split` on a positional matcher, keeping empty segments. -/
def splitByGo (matcher : List Char → Option Nat) (fuel : Nat) (acc : List Char)
    (cs : List Char) : List (List Char) :=
  match fuel, cs with
  | _, [] => [acc.reverse]
  | 0, rest => [acc.reverse ++ rest]
  | f + 1, c :: rest =>
    match matcher (c :: rest) with
    | some k =>
      if k = 0 then splitByGo matcher f (c :: acc) rest
      else acc.reverse :: splitByGo matcher f [] ((c :: rest).drop k)
    | none => splitByGo matcher f (c :: acc) rest

/-- Count non-overlapping matches of a positional matcher (a global-regex
`exec` loop). -/
def countMatchesGo (matcher : List Char → Option Nat) (fuel : Nat) (n : Nat)
    (cs : List Char) : Nat :=
  match fuel, cs with
  | _, [] => n
  | 0, _ => n
  | f + 1, c :: rest =>
    match matcher (c :: rest) with
    | some k =>
      if k = 0 then countMatchesGo matcher f n rest
      else countMatchesGo matcher f (n + 1) ((c :: rest).drop k)
    | none => countMatchesGo matcher f n rest

/-- `splitIntoSections`: the exec loop pushes the text between delimiter
matches, skipping empty in-between stretches, then filters out blank
sections. -/
def splitIntoSections (content : List Char) : List (List Char) :=
  ((splitByGo sectionDelimAt (content.length + 1) [] content).filter
      (fun s => ¬ s.isEmpty)).filter
    (fun s => ¬ (jsTrim s).isEmpty)

end Preprocessing

namespace Preprocessing

/-- Scan every position for a Boolean positional test (`regex.test`). -/
def scanAnyPos (p : List Char → Bool) : List Char → Bool
  | [] => p []
  | c :: rest => p (c :: rest) || scanAnyPos p rest

/-- The importance keywords of the heading heuristic. -/
def importanceKws : List (List Char) :=
  ["important", "key", "main", "significant", "primary", "central"].map
    String.toList

/-- The conclusion-style keywords. -/
def conclusionKws : List (List Char) :=
  ["conclusion", "therefore", "thus", "in summary", "key point",
    "importantly"].map String.toList

/-- Does one of the keywords start here (case-insensitively)? -/
def kwTestAt (kws : List (List Char)) (cs : List Char) : Bool :=
  kws.any (fun k => startsWithCI k cs)

/-- Ordered keyword alternation as a positional matcher returning the
match length. -/
def kwAltAt (kws : List (List Char)) (cs : List Char) : Option Nat :=
  match kws with
  | [] => none
  | k :: rest => if startsWithCI k cs then some k.length else kwAltAt rest cs

/-- Is `region` a valid gap `\s+.*?` between the heading hashes and an
importance keyword: nonempty, starting with whitespace, and whitespace-only
up to its last newline (the lazy dot cannot cross a newline)? -/
def validGapRegion (region : List Char) : Bool :=
  match region with
  | [] => false
  | c :: _ =>
    isWsChar c &&
      (let t := (region.reverse.takeWhile (fun x => x ≠ '\n')).length
       (region.take (region.length - t)).all isWsChar)

/-- Scan forward from the heading hashes for an importance keyword with a
valid gap before it. -/
def headingKwGo (kws : List (List Char)) (region : List Char) :
    List Char → Bool
  | [] => false
  | c :: rest =>
    (kwTestAt kws (c :: rest) && validGapRegion region.reverse) ||
      headingKwGo kws (c :: region) rest

/-- One position of the heading-importance test
`/#\x7b1,3\x7d\s+.*?(important|key|main|significant|primary|central)/i`. -/
def headingImportanceAt (cs : List Char) : Bool :=
  match cs with
  | '#' :: hr =>
    let run := 1 + (hr.takeWhile (fun c => c = '#')).length
    if 3 < run then false
    else headingKwGo importanceKws [] (cs.drop run)
  | _ => false

/-- One match of `/\n\s*[-*]\s+|\n\s*\d+\.\s+/g` at the current position. -/
def listItemAt (cs : List Char) : Option Nat :=
  match cs with
  | '\n' :: r =>
    let w := (r.takeWhile isWsChar).length
    let r2 := r.drop w
    let alt1 : Option Nat := match r2 with
      | c :: r3 =>
        if c = '-' || c = '*' then
          let w2 := (r3.takeWhile isWsChar).length
          if w2 = 0 then none else some (1 + w + 1 + w2)
        else none
      | [] => none
    let alt2 : Option Nat :=
      let ds := r2.takeWhile isDigitChar
      if ds.isEmpty then none
      else match r2.drop ds.length with
        | '.' :: r3 =>
          let w2 := (r3.takeWhile isWsChar).length
          if w2 = 0 then none else some (1 + w + ds.length + 1 + w2)
        | _ => none
    alt1 <|> alt2
  | _ => none

/-- A maximal whitespace run, as the `split(/\s+/)` separator matcher. -/
def wsRunAt (cs : List Char) : Option Nat :=
  let w := (cs.takeWhile isWsChar).length
  if w = 0 then none else some w

/-- The importance score of a section (heading keywords, list items,
conclusion keywords, short-section bonus). -/
def sectionScore (sec : List Char) : Nat :=
  let headingScore := if scanAnyPos headingImportanceAt sec then 10 else 0
  let listItemCount := countMatchesGo listItemAt (sec.length + 1) 0 sec
  let keywordCount :=
    countMatchesGo (kwAltAt conclusionKws) (sec.length + 1) 0 sec
  let wordCount := 1 + countMatchesGo wsRunAt (sec.length + 1) 0 sec
  headingScore + listItemCount * 2 + keywordCount * 3 +
    (if wordCount < 50 then 2 else 0)

/-- Stable descending insertion: the new element goes after every element
with a score at least its own (the engine's stable sort with the
comparator `b.score - a.score`). -/
def sortInsGE (x : List Char × Nat) :
    List (List Char × Nat) → List (List Char × Nat)
  | [] => [x]
  | y :: ys => if x.2 ≤ y.2 then y :: sortInsGE x ys else x :: y :: ys

/-- `rankSectionsByImportance`: score, then sort descending (stable). -/
def rankSectionsByImportance (sections : List (List Char)) : List (List Char) :=
  ((sections.map (fun s => (s, sectionScore s))).foldl
      (fun acc x => sortInsGE x acc) []).map (·.1)

/-- `section.match(/[^.!?]+[.!?]+/g)`: maximal sentence matches (a
nonempty run of non-terminators followed by a nonempty run of
terminators). -/
def isSentenceTerm (c : Char) : Bool :=
  c = '.' || c = '!' || c = '?'

/-- The global sentence-match loop. -/
def sentencesGo (fuel : Nat) (cs : List Char) : List (List Char) :=
  match fuel, cs with
  | _, [] => []
  | 0, _ => []
  | f + 1, c :: rest =>
    if isSentenceTerm c then sentencesGo f rest
    else
      let body := (c :: rest).takeWhile (fun x => ¬ isSentenceTerm x)
      let r1 := (c :: rest).drop body.length
      let terms := r1.takeWhile isSentenceTerm
      if terms.isEmpty then []
      else (body ++ terms) :: sentencesGo f (r1.drop terms.length)

/-- The sentence-accumulation loop of `summarizeSection`; the source's
falsy-element guard is unreachable because every match is nonempty. -/
def summarizeLoop (maxTokens : ℤ) (summary : List Char) (tokenCount : ℤ) :
    List (List Char) → List Char
  | [] => summary
  | s :: rest =>
    if tokenCount < maxTokens then
      let nextTokens := estimateTokenCount (String.mk s)
      if tokenCount + nextTokens ≤ maxTokens then
        summarizeLoop maxTokens (summary ++ ' ' :: s) (tokenCount + nextTokens)
          rest
      else summary
    else summary

/-- `summarizeSection`: leading sentences within the token budget, with a
trailing marker. -/
def summarizeSection (sec : List Char) (maxTokens : ℤ) : List Char :=
  let sentences := sentencesGo (sec.length + 1) sec
  if sentences.isEmpty then []
  else if estimateTokenCount (String.mk sec) ≤ maxTokens then sec
  else
    let s0 := sentences.headD []
    summarizeLoop maxTokens s0 (estimateTokenCount (String.mk s0))
      (sentences.drop 1) ++ " [...]".toList

/-- The greedy section-selection loop of `extractImportantContent`. -/
def selectSectionsGo (remaining : ℤ) (tokenCount : ℤ) (acc : List (List Char)) :
    List (List Char) → List (List Char)
  | [] => acc.reverse
  | s :: rest =>
    let sectionTokens := estimateTokenCount (String.mk s)
    if tokenCount + sectionTokens ≤ remaining then
      selectSectionsGo remaining (tokenCount + sectionTokens) (s :: acc) rest
    else
      let summaryTokenBudget := remaining - tokenCount
      if 100 < summaryTokenBudget then
        (summarizeSection s summaryTokenBudget :: acc).reverse
      else acc.reverse

/-- `extractImportantContent`: keep the first and last sections, fill the
middle with the highest-ranked sections that fit, and join with markers. -/
def extractImportantContent (content : String) (maxTokens : ℤ) : String :=
  let sections := splitIntoSections content.toList
  let introduction := sections.headD []
  let afterShift := sections.drop 1
  let conclusion := afterShift.getLastD []
  let middle := afterShift.dropLast
  let introTokens := estimateTokenCount (String.mk introduction)
  let conclusionTokens := estimateTokenCount (String.mk conclusion)
  let remainingTokens := maxTokens - introTokens - conclusionTokens
  let rankedSections := rankSectionsByImportance middle
  let selectedSections := selectSectionsGo remainingTokens 0 [] rankedSections
  String.intercalate "\n\n"
    ([String.mk introduction, "[Some content summarized for length...]"] ++
      selectedSections.map String.mk ++
      ["[Some content omitted for length...]", String.mk conclusion])

/-- `truncateContent`: under-budget content is returned as is; otherwise a
paragraph-count heuristic chooses between head/middle/tail slicing and
section-based extraction.  The arithmetic on averages uses exact rationals
where the source uses doubles; the claims proved below only exercise the
under-budget branch. -/
def truncateContent (content : String) (maxTokens : ℤ) : String :=
  if content.isEmpty then ""
  else
    let estimatedTokens := estimateTokenCount content
    if estimatedTokens ≤ maxTokens then content
    else
      let paragraphs := splitByGo splitParasAt (content.toList.length + 1) []
        content.toList
      let averageTokensPerParagraph : ℚ :=
        (estimatedTokens : ℚ) / (paragraphs.length : ℚ)
      let maxParagraphs : ℤ := ⌊(maxTokens : ℚ) / averageTokensPerParagraph⌋
      if (maxParagraphs : ℚ) < (paragraphs.length : ℚ) / 2 then
        extractImportantContent content maxTokens
      else
        let startParagraphs : ℤ := ⌈(maxParagraphs : ℚ) * mkRat 1 2⌉
        let endParagraphs : ℤ := ⌈(maxParagraphs : ℚ) * mkRat 3 10⌉
        let middleParagraphs : ℤ := maxParagraphs - startParagraphs - endParagraphs
        let preserved1 := jsSlice paragraphs 0 startParagraphs
        let trunc1 :=
          if maxParagraphs < (paragraphs.length : ℤ) then
            ["[Content truncated for length...]".toList]
          else []
        let middleAndMark :=
          if 0 < middleParagraphs then
            let middleStart : ℤ :=
              ⌊(((paragraphs.length : ℤ) - middleParagraphs : ℤ) : ℚ) / 2⌋
            jsSlice paragraphs middleStart (middleStart + middleParagraphs) ++
              ["[Content truncated for length...]".toList]
          else []
        let endPart :=
          if 0 < endParagraphs then
            jsSlice paragraphs ((paragraphs.length : ℤ) - endParagraphs)
              (paragraphs.length : ℤ)
          else []
        String.intercalate "\n\n"
          ((preserved1 ++ trunc1 ++ middleAndMark ++ endPart).map String.mk)

end Preprocessing

namespace Preprocessing

/-- Insert or overwrite in an ordered association list (`obj[k] = v`). -/
def upsertAssoc (l : List (String × String)) (key : String) (v : String) :
    List (String × String) :=
  match l with
  | [] => [(key, v)]
  | (k, w) :: rest =>
    if k = key then (k, v) :: rest else (k, w) :: upsertAssoc rest key v

/-- Suffix points after successive `(?:\s[A-Z][a-z]+)*` repetitions of the
term pattern (each repetition: exactly one whitespace character, then a
letter run of length at least two), deepest repetition first, ending with
the unrepeated point.  Under the `i` flag the classes `[A-Z]` and `[a-z]`
both mean any ASCII letter. -/
def chainSuffixes (fuel : Nat) (cs : List Char) : List (List Char) :=
  match fuel, cs with
  | 0, _ => [cs]
  | _, [] => [cs]
  | f + 1, w :: rest =>
    if isWsChar w then
      let run := rest.takeWhile isAsciiLetter
      if 2 ≤ run.length then chainSuffixes f (rest.drop run.length) ++ [cs]
      else [cs]
    else [cs]

/-- The keyword tail `\s+kw1\s+kw2...` after the term. -/
def kwSeqMatch (kws : List (List Char)) (cs : List Char) : Option (List Char) :=
  match kws with
  | [] => some cs
  | k :: rest =>
    let w := cs.takeWhile isWsChar
    if w.isEmpty then none
    else
      match matchCI k (cs.drop w.length) with
      | some r => kwSeqMatch rest r
      | none => none

/-- The definition capture `\s+([^.]+)` (greedy whitespace backing off one
character when the capture would otherwise be empty). -/
def wsCaptureNonDot (cs : List Char) : Option (List Char × List Char) :=
  let w := cs.takeWhile isWsChar
  if w.isEmpty then none
  else
    let rest := cs.drop w.length
    let cap := rest.takeWhile (fun c => c ≠ '.')
    if ¬ cap.isEmpty then some (cap, rest.drop cap.length)
    else if 2 ≤ w.length then
      let cap2 := (cs.drop (w.length - 1)).takeWhile (fun c => c ≠ '.')
      some (cap2, (cs.drop (w.length - 1)).drop cap2.length)
    else none

/-- Try the keyword tail at each chain cut, longest chain first (the
greedy repetition backtracks from the deepest repetition). -/
def tryChain (kws : List (List Char)) (cs : List Char) :
    List (List Char) → Option (String × String × List Char)
  | [] => none
  | s :: restSuffixes =>
    (match kwSeqMatch kws s with
     | some r =>
       (match wsCaptureNonDot r with
        | some (cap, after) =>
          some (String.mk (cs.take (cs.length - s.length)), String.mk cap, after)
        | none => tryChain kws cs restSuffixes)
     | none => tryChain kws cs restSuffixes)

/-- One match of a term-definition pattern
`/([A-Z][a-z]+(?:\s[A-Z][a-z]+)*)\s+kws...\s+([^.]+)/gi` at the current
position: a word chain (letter runs of length at least two separated by
single whitespace characters), the keyword sequence, and the definition
capture.  Returns the term, the raw definition capture, and the remainder
after the match. -/
def termMatchAt (fuel : Nat) (kws : List (List Char)) (cs : List Char) :
    Option (String × String × List Char) :=
  let run := cs.takeWhile isAsciiLetter
  if run.length < 2 then none
  else tryChain kws cs (chainSuffixes fuel (cs.drop run.length))

/-- The `while (pattern.exec(content))` loop of `extractKeyTerms`: record
`keyTerms[term] = definition` for every match whose trimmed definition is
nonempty and whose term is longer than three characters. -/
def termScanGo (fuel : Nat) (kws : List (List Char))
    (acc : List (String × String)) (cs : List Char) : List (String × String) :=
  match fuel, cs with
  | _, [] => acc
  | 0, _ => acc
  | f + 1, c :: rest =>
    match termMatchAt f kws (c :: rest) with
    | some (term, rawDef, after) =>
      let definition := jsTrimS rawDef
      let acc2 :=
        if 3 < term.length ∧ definition ≠ "" then upsertAssoc acc term definition
        else acc
      termScanGo f kws acc2 after
    | none => termScanGo f kws acc rest

/-- `extractKeyTerms`: the four term-definition patterns applied in order,
accumulating into one key-term map. -/
def extractKeyTerms (content : String) : List (String × String) :=
  let cs := content.toList
  let scan := fun (kws : List String) (acc : List (String × String)) =>
    termScanGo (cs.length + 1) (kws.map String.toList) acc cs
  scan ["is", "a"] (scan ["means"] (scan ["refers", "to"]
    (scan ["is", "defined", "as"] [])))

example :
    extractKeyTerms "Photosynthesis is defined as the conversion of light. Done." =
      [("Photosynthesis", "the conversion of light")] := by decide

example : extractKeyTerms "hello world." = [] := by decide

/-- `preprocessContent`: clean, optionally prepend a key-terms block, and
truncate the body when the budgeted estimate is exceeded.
`preserveHeadings` and `summarizeLongSections` are destructured by the
source but never used. -/
def preprocessContent (content : String) (options : PreprocessingOptions) :
    String :=
  let maxTokens := options.maxTokens.getD MAX_CONTENT_TOKENS
  let shouldExtractTerms := options.extractKeyTerms.getD true
  let processedContent := cleanContent content
  let tokenEstimate := estimateTokenCount processedContent
  let keyTermsSection :=
    if shouldExtractTerms then
      let terms := extractKeyTerms processedContent
      if 0 < terms.length then
        "KEY TERMS:\n" ++
          String.intercalate "\n"
            (terms.map (fun td => "- " ++ td.1 ++ ": " ++ td.2)) ++
          "\n\n"
      else ""
    else ""
  let keyTermsTokens := estimateTokenCount keyTermsSection
  let contentTokenBudget := maxTokens - keyTermsTokens
  let processed2 :=
    if contentTokenBudget < tokenEstimate then
      truncateContent processedContent contentTokenBudget
    else processedContent
  keyTermsSection ++ processed2

end Preprocessing

/-! ## `server/claude/tokens.ts` -/

namespace ClaudeTokens

/-- The Claude tokens module's `estimateTokenCount`:
`Math.ceil(text.length / 4)` behind a falsy-input guard.  Dividing a
character count below `2^53` by `4` is exact in double arithmetic, so the
rational model is faithful. -/
def estimateTokenCount (text : String) : ℤ :=
  if text.isEmpty then 0 else ⌈(text.length : ℚ) / 4⌉

end ClaudeTokens

/-! ## The retry policy (`calculateBackoff`) -/

namespace RetryPolicy

/-- `RetryConfig`. -/
structure RetryConfig where
  maxRetries : Nat
  initialDelayMs : ℚ
  maxDelayMs : ℚ
  backoffFactor : ℚ
deriving DecidableEq, Repr

/-- `DEFAULT_RETRY_CONFIG`. -/
def DEFAULT_RETRY_CONFIG : RetryConfig :=
  { maxRetries := 3, initialDelayMs := 1000, maxDelayMs := 10000,
    backoffFactor := 2 }

/-- `calculateBackoff`, with `Math.random()` modelled by the parameter
`r ∈ [0, 1)`: the capped exponential delay plus up to twenty percent
jitter (`0.2 = 2/10`). -/
def calculateBackoff (retryCount : Nat) (config : RetryConfig) (r : ℚ) : ℚ :=
  let delay :=
    min (config.initialDelayMs * config.backoffFactor ^ retryCount)
      config.maxDelayMs
  let jitter := delay * mkRat 2 10 * r
  delay + jitter

end RetryPolicy

/-! ## Evaluation lemmas for the token estimators -/

/-- `Math.ceil(n / 4)` is the ceiling division `(n + 3) / 4`. -/
theorem ceil_div_four_eq (n : ℕ) :
    ⌈(n : ℚ) / 4⌉ = (((n + 3) / 4 : ℕ) : ℤ) := by
  have h1 : 4 * ((n + 3) / 4) ≤ n + 3 := by omega
  have h2 : n ≤ 4 * ((n + 3) / 4) := by omega
  set k : ℕ := (n + 3) / 4 with hk
  have h1q : (4 : ℚ) * k ≤ (n : ℚ) + 3 := by exact_mod_cast h1
  have h2q : (n : ℚ) ≤ 4 * k := by exact_mod_cast h2
  rw [Int.ceil_eq_iff]
  constructor
  · push_cast
    linarith
  · push_cast
    linarith

/-- The preprocessor's estimator evaluates to ceiling division by four. -/
theorem preprocessing_estimate_eval (s : String) :
    Preprocessing.estimateTokenCount s = (((s.length + 3) / 4 : ℕ) : ℤ) := by
  unfold Preprocessing.estimateTokenCount Preprocessing.TOKENS_PER_CHAR
  have hq : (mkRat 1 4 : ℚ) = 1 / 4 := by
    rw [Rat.mkRat_eq_div]
    norm_num
  by_cases h : s.isEmpty
  · rw [(String.isEmpty_iff s).mp h]
    simp
  · simp only [h, if_false, Bool.false_eq_true]
    rw [hq, mul_one_div]
    exact ceil_div_four_eq s.length

/-- The Claude tokens module's estimator evaluates to the same ceiling
division. -/
theorem claudetokens_estimate_eval (s : String) :
    ClaudeTokens.estimateTokenCount s = (((s.length + 3) / 4 : ℕ) : ℤ) := by
  unfold ClaudeTokens.estimateTokenCount
  by_cases h : s.isEmpty
  · rw [(String.isEmpty_iff s).mp h]
    simp
  · simp only [h, if_false, Bool.false_eq_true]
    exact ceil_div_four_eq s.length

/-! ## Structural lemmas about the quiz parser -/

namespace QuizParser

/-- The shape invariant of parse results: at least one question and no
error, or no questions and a nonempty error string. -/
def questionsOrError (r : Quiz) : Prop :=
  (r.questions ≠ [] ∧ r.error = none) ∨
  (r.questions = [] ∧ ∃ e, r.error = some e ∧ e ≠ "")

/-- A successful JSON parse carries no error and has metadata. -/
theorem parseJSONTry_ok_some (now s : String) (q : Quiz)
    (h : parseJSONTry now s = .ok (some q)) :
    q.error = none ∧ q.metadata.isSome = true := by
  unfold parseJSONTry at h
  repeat' split at h
  all_goals simp at h
  subst h
  exact ⟨rfl, rfl⟩

/-- `parseJSONResponse` transfers the shape facts through the catch. -/
theorem parseJSONResponse_some (now s : String) (q : Quiz)
    (h : parseJSONResponse now s = some q) :
    q.error = none ∧ q.metadata.isSome = true := by
  unfold parseJSONResponse at h
  split at h
  · rename_i v hv
    subst h
    exact parseJSONTry_ok_some now s _ (by rw [hv])
  · exact absurd h (by simp)

/-- A successful markdown parse carries no error and has metadata. -/
theorem parseMarkdownResponse_some (now s : String) (q : Quiz)
    (h : parseMarkdownResponse now s = some q) :
    q.error = none ∧ q.metadata.isSome = true := by
  simp only [parseMarkdownResponse] at h
  split at h
  · exact absurd h (by simp)
  · simp at h
    subst h
    exact ⟨rfl, rfl⟩

/-- A successful structured-text parse carries no error and has
metadata. -/
theorem parseStructuredResponse_some (now s : String) (q : Quiz)
    (h : parseStructuredResponse now s = some q) :
    q.error = none ∧ q.metadata.isSome = true := by
  simp only [parseStructuredResponse] at h
  repeat' split at h
  all_goals simp at h
  all_goals rw [← h]
  all_goals exact ⟨rfl, rfl⟩

/-- `metaOrNow` always produces metadata. -/
theorem metaOrNow_isSome (now : String) (m : Option (List (String × JsonValue))) :
    (metaOrNow now m).isSome = true := by
  unfold metaOrNow
  split <;> rfl

/-- `validateQuiz` preserves the shape invariant. -/
theorem validateQuiz_questionsOrError (now : String) (quiz : Quiz)
    (opts : ParsingOptions) (h1 : quiz.error = none)
    (h2 : quiz.questions ≠ []) :
    questionsOrError (validateQuiz now quiz opts) := by
  simp only [validateQuiz]
  split
  · exact Or.inl ⟨h2, h1⟩
  · split
    · exact Or.inr ⟨rfl, "No valid questions found after validation", rfl, by decide⟩
    · rename_i hlen
      refine Or.inl ⟨?_, rfl⟩
      intro hnil
      apply hlen
      simpa using congrArg List.length hnil

/-- `validateQuiz` keeps metadata present. -/
theorem validateQuiz_metadata (now : String) (quiz : Quiz)
    (opts : ParsingOptions) (h : quiz.metadata.isSome = true) :
    (validateQuiz now quiz opts).metadata.isSome = true := by
  simp only [validateQuiz]
  split
  · exact h
  · split
    · exact metaOrNow_isSome now quiz.metadata
    · exact metaOrNow_isSome now quiz.metadata

/-- The combined well-formedness facts established below for every step of
`parseQuizResponse`. -/
def goodQuiz (r : Quiz) : Prop :=
  questionsOrError r ∧ r.metadata.isSome = true

/-- The failure quiz is well formed. -/
theorem quizParseFailure_good (now : String) : goodQuiz (quizParseFailure now) := by
  refine ⟨Or.inr ⟨rfl, _, rfl, by decide⟩, rfl⟩

/-- The structured step is well formed. -/
theorem stStep_good (now s : String) (opts : ParsingOptions) :
    goodQuiz (parseQuizResponseStStep now s opts) := by
  unfold parseQuizResponseStStep
  split
  · rename_i q hq
    split
    · rename_i hlen
      have hf := parseStructuredResponse_some now s q hq
      refine ⟨validateQuiz_questionsOrError now q opts hf.1 ?_, 
        validateQuiz_metadata now q opts hf.2⟩
      intro hnil
      rw [hnil] at hlen
      simp at hlen
    · exact quizParseFailure_good now
  · exact quizParseFailure_good now

/-- The markdown step is well formed. -/
theorem mdStep_good (now s : String) (opts : ParsingOptions) :
    goodQuiz (parseQuizResponseMdStep now s opts) := by
  unfold parseQuizResponseMdStep
  split
  · rename_i q hq
    split
    · rename_i hlen
      have hf := parseMarkdownResponse_some now s q hq
      refine ⟨validateQuiz_questionsOrError now q opts hf.1 ?_, 
        validateQuiz_metadata now q opts hf.2⟩
      intro hnil
      rw [hnil] at hlen
      simp at hlen
    · exact stStep_good now s opts
  · exact stStep_good now s opts

/-- The whole parse is well formed. -/
theorem parseQuizResponse_good (now s : String) (opts : ParsingOptions) :
    goodQuiz (parseQuizResponse now s opts) := by
  unfold parseQuizResponse
  split
  · rename_i q hq
    split
    · rename_i hlen
      have hf := parseJSONResponse_some now s q hq
      refine ⟨validateQuiz_questionsOrError now q opts hf.1 ?_, 
        validateQuiz_metadata now q opts hf.2⟩
      intro hnil
      rw [hnil] at hlen
      simp at hlen
    · exact mdStep_good now s opts
  · exact mdStep_good now s opts

end QuizParser

namespace QuizParser

/-- A member of a `filterMap id` over `mapWithIndex` comes from some index
and element. -/
theorem mem_filterMap_mapWithIndex {α β : Type} {f : Nat → α → Option β} :
    ∀ (l : List α) (i : Nat) (b : β),
      b ∈ (mapWithIndex f i l).filterMap id → ∃ j a, f j a = some b := by
  intro l
  induction l with
  | nil =>
    intro i b h
    simp [mapWithIndex] at h
  | cons x xs ih =>
    intro i b h
    cases hfx : f i x with
    | none =>
      simp only [mapWithIndex, List.filterMap_cons, hfx, id_eq] at h
      exact ih (i + 1) b h
    | some y =>
      simp only [mapWithIndex, List.filterMap_cons, hfx, id_eq,
        List.mem_cons] at h
      rcases h with rfl | h2
      · exact ⟨i, x, hfx⟩
      · exact ih (i + 1) b h2

/-- Every question the validation pass keeps comes from `validateQuestion`
at some index. -/
theorem mem_validateQuiz_questions (now : String) (quiz : Quiz)
    (opts : ParsingOptions) (q2 : QuizQuestion)
    (hv : opts.validateQuestions.getD true = true)
    (h : q2 ∈ (validateQuiz now quiz opts).questions) :
    ∃ i a, validateQuestion opts i a = some q2 := by
  simp only [validateQuiz, hv, Bool.true_eq_false, if_false] at h
  split at h
  · simp at h
  · exact mem_filterMap_mapWithIndex quiz.questions 0 q2 h

/-- `validateQuestion` keeps or drops, never reorders: a surviving
question is the fixed-up original, and the multiple-choice floor held. -/
theorem validateQuestion_some (opts : ParsingOptions) (i : Nat)
    (q q2 : QuizQuestion) (h : validateQuestion opts i q = some q2) :
    q2 = fixTrueFalse opts (fixId i q) ∧
      ¬((fixId i q).qtype = QuestionType.multiple_choice ∧
        optionsLen (fixId i q) < 2) := by
  simp only [validateQuestion] at h
  split at h
  · exact absurd h (by simp)
  · split at h
    · exact absurd h (by simp)
    · rename_i hmc _
      exact ⟨(Option.some.injEq _ _ ▸ h).symm, hmc⟩

/-- `fixId` computes the claimed id and changes nothing else. -/
theorem fixId_fields (i : Nat) (q : QuizQuestion) :
    (fixId i q).id = (if q.id = 0 then ((i + 1 : Nat) : ℚ) else q.id) ∧
      (fixId i q).qtype = q.qtype ∧ (fixId i q).options = q.options := by
  unfold fixId
  split <;> simp_all

/-- `fixTrueFalse` leaves id, type and options unchanged. -/
theorem fixTrueFalse_fields (opts : ParsingOptions) (q : QuizQuestion) :
    (fixTrueFalse opts q).id = q.id ∧ (fixTrueFalse opts q).qtype = q.qtype ∧
      (fixTrueFalse opts q).options = q.options := by
  unfold fixTrueFalse
  split <;> simp_all

/-- A question surviving `validateQuestion` keeps its id when the original
id is a truthy number, and receives `index + 1` otherwise. -/
theorem validateQuestion_id (opts : ParsingOptions) (i : Nat)
    (q q2 : QuizQuestion) (h : validateQuestion opts i q = some q2) :
    q2.id = if q.id = 0 then ((i + 1 : Nat) : ℚ) else q.id := by
  obtain ⟨rfl, -⟩ := validateQuestion_some opts i q q2 h
  rw [(fixTrueFalse_fields opts (fixId i q)).1, (fixId_fields i q).1]

/-- A `multiple_choice` question surviving `validateQuestion` has at least
two options. -/
theorem validateQuestion_mc (opts : ParsingOptions) (i : Nat)
    (q q2 : QuizQuestion) (h : validateQuestion opts i q = some q2)
    (hmc : q2.qtype = QuestionType.multiple_choice) :
    ∃ os, q2.options = some os ∧ 2 ≤ os.length := by
  obtain ⟨rfl, hfloor⟩ := validateQuestion_some opts i q q2 h
  rw [(fixTrueFalse_fields opts (fixId i q)).2.1] at hmc
  rw [(fixTrueFalse_fields opts (fixId i q)).2.2]
  have hlen : ¬ optionsLen (fixId i q) < 2 := fun hl => hfloor ⟨hmc, hl⟩
  cases hq : (fixId i q).options with
  | none =>
    exfalso
    apply hlen
    simp [optionsLen, hq]
  | some os =>
    refine ⟨os, rfl, ?_⟩
    have : optionsLen (fixId i q) = os.length := by simp [optionsLen, hq]
    omega

end QuizParser

/-! ## The claims -/

open QuizParser

/-- The adversarial input of C1: a fenced block whose contents are not
valid JSON. -/
def c1Bad : String := "```json\n\x7bbad\x7d\n```"

/-- Claim C1: `parseQuizResponse` is total (it is a plain function into
`Quiz`, and every result carries metadata), and every error
`parseEvaluationResponse` raises is the rethrown
`Failed to parse evaluation response:` error — so, contrary to the claim,
the evaluation parser can throw. -/
theorem C1_parse_totality (now s t : String) (opts : ParsingOptions) :
    (parseQuizResponse now s opts).metadata.isSome = true ∧
      ∀ e, EvalService.parseEvaluationResponse t = .error e →
        ∃ e0, e = "Failed to parse evaluation response: " ++ e0 := by
  refine ⟨(parseQuizResponse_good now s opts).2, ?_⟩
  intro e he
  unfold EvalService.parseEvaluationResponse at he
  split at he
  · exact absurd he (by simp)
  · rename_i e1 _
    refine ⟨e1, ?_⟩
    injection he with h
    exact h.symm

/-- The exact error `parseEvaluationResponse` raises on `c1Bad`: the
claim that it never throws is false. -/
theorem C1_eval_throws_counterexample :
    EvalService.parseEvaluationResponse c1Bad =
      .error
        "Failed to parse evaluation response: Expected string key in JSON object" := by
  rfl

/-- Witness for C1 at concrete inputs. -/
theorem C1_parse_totality_witness :
    (parseQuizResponse "" "" ParsingOptions.empty).metadata.isSome = true ∧
      ∃ e0,
        "Failed to parse evaluation response: Expected string key in JSON object" =
          "Failed to parse evaluation response: " ++ e0 :=
  ⟨(C1_parse_totality "" "" c1Bad ParsingOptions.empty).1,
   (C1_parse_totality "" "" c1Bad ParsingOptions.empty).2
     "Failed to parse evaluation response: Expected string key in JSON object"
     (by rfl)⟩

/-- Claim C2 (amended): every result of `parseQuizResponse` has at least
one question and no error, or no questions and a nonempty error.  The
original claim's parenthetical — that every returned question has
nonempty trimmed text — is refuted by `C2_blank_text_counterexample`. -/
theorem C2_quiz_shape (now s : String) (opts : ParsingOptions) :
    questionsOrError (parseQuizResponse now s opts) :=
  (parseQuizResponse_good now s opts).1

/-- The C2 input: the question's raw `text` is the truthy string of two
spaces, so it survives normalization, but its stored (trimmed) text is
empty. -/
def c2In : String :=
  "```json\n\x7b\"questions\":[\x7b\"text\":\"  \"\x7d]\x7d\n```"

/-- A returned quiz with no error whose single question has empty trimmed
text, refuting C2's parenthetical. -/
theorem C2_blank_text_counterexample :
    (parseQuizResponse "T" c2In ParsingOptions.empty).questions.map
        QuizQuestion.text = [""] ∧
      (parseQuizResponse "T" c2In ParsingOptions.empty).error = none := by
  decide

/-- Claim C3 (amended): the markdown and structured-text paths resolve a
single-letter A–D answer to the option text at `charCode(letter) - 65`,
and leave the letter as-is when the index is out of range.  The JSON path
does no such resolution (`C3_json_no_resolution_counterexample`). -/
theorem C3_letter_resolution (c : Char) (opts : List (List Char))
    (hAD : isLetterAD c = true) (hne : opts ≠ []) :
    (letterIndex c < opts.length →
        mdResolveAnswer [c] opts = opts.getD (letterIndex c) [] ∧
        stResolveAnswer [c] opts = opts.getD (letterIndex c) []) ∧
      (opts.length ≤ letterIndex c →
        mdResolveAnswer [c] opts = [c] ∧ stResolveAnswer [c] opts = [c]) := by
  have h0 : 0 < opts.length := List.length_pos.mpr hne
  constructor
  · intro hi
    constructor
    · simp [mdResolveAnswer, h0, hAD, hi]
    · simp [stResolveAnswer, isSingleLetterAD, h0, hAD, hi]
  · intro hi
    have hni : ¬ letterIndex c < opts.length := by omega
    constructor
    · simp [mdResolveAnswer, h0, hAD, hni]
    · simp [stResolveAnswer, isSingleLetterAD, h0, hAD, hni]

/-- The option texts of the claim's own example. -/
def c3Opts : List (List Char) :=
  ["Paris".toList, "London".toList, "Rome".toList, "Berlin".toList]

/-- Witness for C3: `B` resolves to `London` in both paths. -/
theorem C3_letter_resolution_witness :
    mdResolveAnswer ['B'] c3Opts = "London".toList ∧
      stResolveAnswer ['B'] c3Opts = "London".toList := by
  have h := (C3_letter_resolution 'B' c3Opts (by decide) (by decide)).1 (by decide)
  exact ⟨h.1.trans (by decide), h.2.trans (by decide)⟩

/-- The C3 input: a fenced-JSON multiple-choice question whose
`correctAnswer` is the letter `B` with four options present. -/
def c3In : String :=
  "```json\n\x7b\"questions\":[\x7b\"text\":\"Capital?\",\"type\":\"multiple_choice\"," ++
    "\"options\":[\"Paris\",\"London\",\"Rome\",\"Berlin\"]," ++
    "\"correctAnswer\":\"B\"\x7d]\x7d\n```"

/-- In the fenced-JSON path the stored answer stays the letter `B`: the
JSON path does no letter resolution, refuting C3's claim that all three
format paths share the rule. -/
theorem C3_json_no_resolution_counterexample :
    (parseQuizResponse "T" c3In ParsingOptions.empty).questions.map
        QuizQuestion.correctAnswer = ["B"] ∧
      ("B" : String) ≠ "London" := by
  decide

/-- Claim C4 (amended): a question surviving validation keeps its original
truthy numeric id, and receives `index + 1` only where the original id was
falsy; ids are NOT reassigned to `1..n`, so duplicates survive
(`C4_duplicate_ids_counterexample`). -/
theorem C4_id_reassignment (now : String) (quiz : Quiz) (opts : ParsingOptions)
    (q2 : QuizQuestion) (hv : opts.validateQuestions.getD true = true)
    (h : q2 ∈ (validateQuiz now quiz opts).questions) :
    ∃ i q, validateQuestion opts i q = some q2 ∧
      q2.id = if q.id = 0 then ((i + 1 : Nat) : ℚ) else q.id := by
  obtain ⟨i, q, hq⟩ := mem_validateQuiz_questions now quiz opts q2 hv h
  exact ⟨i, q, hq, validateQuestion_id opts i q q2 hq⟩

/-- A question whose id is falsy (`0` after normalization). -/
def c4q0 : QuizQuestion :=
  { id := 0, qtype := .open_ended, text := "A", options := none,
    correctAnswer := "", explanation := none }

/-- The same question after validation reassigns `index + 1 = 1`. -/
def c4q1 : QuizQuestion := { c4q0 with id := 1 }

/-- A one-question quiz whose question has a falsy id. -/
def c4Quiz : Quiz := { questions := [c4q0], metadata := none, error := none }

/-- Witness for C4 at a concrete quiz. -/
theorem C4_id_reassignment_witness :
    ∃ i q, validateQuestion ParsingOptions.empty i q = some c4q1 ∧
      c4q1.id = if q.id = 0 then ((i + 1 : Nat) : ℚ) else q.id :=
  C4_id_reassignment "T" c4Quiz ParsingOptions.empty c4q1 (by decide) (by decide)

/-- The C4 input of the claim itself: three questions with ids
`[null, 5, 5]`. -/
def c4In : String :=
  "```json\n\x7b\"questions\":[\x7b\"text\":\"A\",\"id\":null\x7d," ++
    "\x7b\"text\":\"B\",\"id\":5\x7d,\x7b\"text\":\"C\",\"id\":5\x7d]\x7d\n```"

/-- Validation turns ids `[null, 5, 5]` into `[1, 5, 5]`, not the claimed
`[1, 2, 3]`: duplicate truthy ids survive. -/
theorem C4_duplicate_ids_counterexample :
    (parseQuizResponse "T" c4In ParsingOptions.empty).questions.map
        QuizQuestion.id = [1, 5, 5] ∧
      ([1, 5, 5] : List ℚ) ≠ [1, 2, 3] := by
  decide

/-- Claim C5: when the fenced-JSON path yields a quiz with at least one
question, `parseQuizResponse` returns its validation — the JSON format
wins regardless of what the markdown or structured paths would produce. -/
theorem C5_json_priority (now s : String) (opts : ParsingOptions) (q : Quiz)
    (hj : parseJSONResponse now s = some q) (hq : 0 < q.questions.length) :
    parseQuizResponse now s opts = validateQuiz now q opts := by
  unfold parseQuizResponse
  rw [hj]
  exact if_pos hq

/-- The C5 input: both a markdown question section and a fenced JSON
block are present. -/
def c5In : String :=
  "# Question 1\nWhat is this?\n\n```json\n\x7b\"questions\":[\x7b\"text\":\"Hi\",\"id\":7\x7d]\x7d\n```"

/-- The quiz the JSON path extracts from `c5In`. -/
def c5Quiz : Quiz :=
  { questions := [{ id := 7, qtype := .open_ended, text := "Hi",
                    options := none, correctAnswer := "", explanation := none }],
    metadata := some [("generatedAt", JsonValue.str "T")],
    error := none }

/-- Witness for C5: on `c5In` the JSON-derived quiz is returned. -/
theorem C5_json_priority_witness :
    parseQuizResponse "T" c5In ParsingOptions.empty =
      validateQuiz "T" c5Quiz ParsingOptions.empty :=
  C5_json_priority "T" c5In ParsingOptions.empty c5Quiz (by decide) (by decide)

/-- The C6 input: the claim's own payload as the only JSON content. -/
def c6In : String := "```json\n\x7b\"scores\":\x7b\"overall\":7\x7d\x7d\n```"

/-- Claim C6: on `c6In` the parsed evaluation has `overall = 7` and every
other field defaulted (`criteria = \x7b\x7d`, arrays `[]`, strings `""`);
and in general `validateEvaluationResult` rebuilds every missing array
field as `[]`, a missing `criteria` as `\x7b\x7d`, and missing strings as
`""`. -/
theorem C6_eval_defaults :
    (∃ r, EvalService.parseEvaluationResponse c6In = .ok r ∧
        r.scores.overall = 7 ∧ r.scores.criteria = .obj [] ∧
        r.feedback.strengths = [] ∧ r.feedback.improvements = [] ∧
        r.feedback.misconceptions = [] ∧ r.feedback.summary = "" ∧
        r.missingElements = [] ∧ r.explanation = "") ∧
      ∀ v : JsonValue,
        (jGet2 v "feedback" "strengths" = none →
          (EvalService.validateEvaluationResult v).feedback.strengths = []) ∧
        (jGet2 v "feedback" "improvements" = none →
          (EvalService.validateEvaluationResult v).feedback.improvements = []) ∧
        (jGet2 v "feedback" "misconceptions" = none →
          (EvalService.validateEvaluationResult v).feedback.misconceptions = []) ∧
        (jGet v "missingElements" = none →
          (EvalService.validateEvaluationResult v).missingElements = []) ∧
        (jGet2 v "scores" "criteria" = none →
          (EvalService.validateEvaluationResult v).scores.criteria = .obj []) ∧
        (jGet2 v "feedback" "summary" = none →
          (EvalService.validateEvaluationResult v).feedback.summary = "") := by
  constructor
  · exact ⟨{ scores := { overall := 7, criteria := .obj [] },
             feedback := { strengths := [], improvements := [],
                           misconceptions := [], summary := "" },
             missingElements := [], explanation := "",
             raw := some (.str c6In) },
      by decide, rfl, rfl, rfl, rfl, rfl, rfl, rfl, rfl⟩
  · intro v
    refine ⟨?_, ?_, ?_, ?_, ?_, ?_⟩ <;> intro h <;>
      simp [EvalService.validateEvaluationResult, EvalService.jsOrEmptyObj, h]

/-- Witness for C6's defaulting clauses at the empty object. -/
theorem C6_eval_defaults_witness :
    (EvalService.validateEvaluationResult (.obj [])).feedback.strengths = [] ∧
      (EvalService.validateEvaluationResult (.obj [])).missingElements = [] ∧
      (EvalService.validateEvaluationResult (.obj [])).scores.criteria = .obj [] :=
  ⟨((C6_eval_defaults.2 (.obj [])).1 (by decide)),
   ((C6_eval_defaults.2 (.obj [])).2.2.2.1 (by decide)),
   ((C6_eval_defaults.2 (.obj [])).2.2.2.2.1 (by decide))⟩

/-- The C7 input: the sole question is a multiple-choice question with a
single option. -/
def c7In : String :=
  "```json\n\x7b\"questions\":[\x7b\"text\":\"Q\",\"type\":\"multiple_choice\"," ++
    "\"options\":[\"only\"],\"correctAnswer\":\"A\"\x7d]\x7d\n```"

/-- Claim C7: a surviving multiple-choice question always has at least two
options (under-optioned ones are dropped), and when dropping leaves no
questions the result is the empty quiz with the validation error and
metadata. -/
theorem C7_mc_floor (now : String) (quiz : Quiz) (opts : ParsingOptions)
    (q2 : QuizQuestion) (hv : opts.validateQuestions.getD true = true)
    (h : q2 ∈ (validateQuiz now quiz opts).questions)
    (hmc : q2.qtype = QuestionType.multiple_choice) :
    (∃ os, q2.options = some os ∧ 2 ≤ os.length) ∧
      parseQuizResponse "T" c7In ParsingOptions.empty =
        { questions := [],
          metadata := some [("generatedAt", JsonValue.str "T")],
          error := some "No valid questions found after validation" } := by
  refine ⟨?_, by decide⟩
  obtain ⟨i, q, hq⟩ := mem_validateQuiz_questions now quiz opts q2 hv h
  exact validateQuestion_mc opts i q q2 hq hmc

/-- A well-optioned multiple-choice question that survives validation. -/
def c7q : QuizQuestion :=
  { id := 1, qtype := .multiple_choice, text := "Q",
    options := some ["a", "b"], correctAnswer := "a", explanation := none }

/-- A one-question quiz holding `c7q`. -/
def c7Quiz : Quiz := { questions := [c7q], metadata := none, error := none }

/-- Witness for C7 at a concrete surviving multiple-choice question. -/
theorem C7_mc_floor_witness :
    (∃ os, c7q.options = some os ∧ 2 ≤ os.length) ∧
      parseQuizResponse "T" c7In ParsingOptions.empty =
        { questions := [],
          metadata := some [("generatedAt", JsonValue.str "T")],
          error := some "No valid questions found after validation" } :=
  C7_mc_floor "T" c7Quiz ParsingOptions.empty c7q (by decide) (by decide)
    (by decide)

/-- Shared C8 helper: when the cleaned content yields no key terms and its
estimate is within the budget, `preprocessContent` returns the cleaned
content untouched. -/
theorem preprocess_under_budget (content : String) (m : ℤ)
    (hkt : Preprocessing.extractKeyTerms (Preprocessing.cleanContent content) = [])
    (hle : Preprocessing.estimateTokenCount (Preprocessing.cleanContent content) ≤ m) :
    Preprocessing.preprocessContent content ⟨some m, none, none, none⟩ =
      Preprocessing.cleanContent content := by
  have h0 : Preprocessing.estimateTokenCount "" = 0 := by decide
  have hcond : ¬ (m - Preprocessing.estimateTokenCount "" <
      Preprocessing.estimateTokenCount (Preprocessing.cleanContent content)) := by
    rw [h0]
    omega
  simp only [Preprocessing.preprocessContent, hkt, Option.getD, List.length_nil,
    lt_irrefl, if_false, if_true]
  rw [if_neg hcond]
  exact String.empty_append _

/-- Claim C8 (amended): for content whose cleaned form has no key terms
and fits the budget, the preprocessor returns the cleaned content with no
truncation — but it returns the CLEANED content, not the input itself
(`C8_cleaning_counterexample`). -/
theorem C8_under_budget (content : String) (m : ℤ)
    (hkt : Preprocessing.extractKeyTerms (Preprocessing.cleanContent content) = [])
    (hle : Preprocessing.estimateTokenCount (Preprocessing.cleanContent content) ≤ m) :
    Preprocessing.preprocessContent content ⟨some m, none, none, none⟩ =
      Preprocessing.cleanContent content :=
  preprocess_under_budget content m hkt hle

/-- Witness for C8 at concrete content far under its budget. -/
theorem C8_under_budget_witness :
    Preprocessing.preprocessContent "hello world." ⟨some 100, none, none, none⟩ =
      Preprocessing.cleanContent "hello world." :=
  C8_under_budget "hello world." 100 (by decide)
    (by rw [preprocessing_estimate_eval]; decide)

/-- The options of the claim's boundary instance for the input `"a  b"`:
`maxTokens = estimate(text) + 100`. -/
def c8Opts : Preprocessing.PreprocessingOptions :=
  ⟨some (Preprocessing.estimateTokenCount "a  b" + 100), none, none, none⟩

/-- Even far under budget the preprocessor does not return the input
unchanged: whitespace cleanup rewrites `"a  b"` to `"a b"`, refuting C8 as
stated. -/
theorem C8_cleaning_counterexample :
    Preprocessing.preprocessContent "a  b" c8Opts = "a b" ∧
      ("a b" : String) ≠ "a  b" := by
  constructor
  · rw [show c8Opts =
        (⟨some (Preprocessing.estimateTokenCount "a  b" + 100), none, none, none⟩ :
          Preprocessing.PreprocessingOptions) from rfl,
      preprocess_under_budget "a  b" _ (by decide)
        (by rw [preprocessing_estimate_eval, preprocessing_estimate_eval]; decide)]
    decide
  · decide

/-- Claim C9: with `Math.random()` modelled as `r ∈ [0, 1)`,
`calculateBackoff` is exactly the capped exponential delay plus
`delay * 0.2 * r` jitter; below the cap it is at least `0.8` times the
uncapped exponential; and it is non-decreasing in the retry count. -/
theorem C9_backoff (cfg : RetryPolicy.RetryConfig) (r : ℚ) (n m : Nat)
    (h1 : 0 ≤ cfg.initialDelayMs) (h2 : 1 ≤ cfg.backoffFactor)
    (hr0 : 0 ≤ r) (_hr1 : r < 1) (hnm : n ≤ m) :
    RetryPolicy.calculateBackoff n cfg r =
        min (cfg.initialDelayMs * cfg.backoffFactor ^ n) cfg.maxDelayMs +
          min (cfg.initialDelayMs * cfg.backoffFactor ^ n) cfg.maxDelayMs *
            mkRat 2 10 * r ∧
      (cfg.initialDelayMs * cfg.backoffFactor ^ n ≤ cfg.maxDelayMs →
        mkRat 8 10 * (cfg.initialDelayMs * cfg.backoffFactor ^ n) ≤
          RetryPolicy.calculateBackoff n cfg r) ∧
      RetryPolicy.calculateBackoff n cfg r ≤ RetryPolicy.calculateBackoff m cfg r := by
  have h02 : (mkRat 2 10 : ℚ) = 1 / 5 := by
    rw [Rat.mkRat_eq_div]
    norm_num
  have h08 : (mkRat 8 10 : ℚ) = 4 / 5 := by
    rw [Rat.mkRat_eq_div]
    norm_num
  have hf0 : (0 : ℚ) ≤ cfg.backoffFactor := le_trans zero_le_one h2
  have hdn0 : (0 : ℚ) ≤ cfg.initialDelayMs * cfg.backoffFactor ^ n :=
    mul_nonneg h1 (pow_nonneg hf0 n)
  have heq : ∀ k : Nat, RetryPolicy.calculateBackoff k cfg r =
      min (cfg.initialDelayMs * cfg.backoffFactor ^ k) cfg.maxDelayMs +
        min (cfg.initialDelayMs * cfg.backoffFactor ^ k) cfg.maxDelayMs *
          mkRat 2 10 * r := fun k => rfl
  refine ⟨heq n, ?_, ?_⟩
  · intro hcap
    rw [heq n, min_eq_left hcap, h02, h08]
    have hj : (0 : ℚ) ≤ cfg.initialDelayMs * cfg.backoffFactor ^ n * (1 / 5) * r :=
      mul_nonneg (mul_nonneg hdn0 (by norm_num)) hr0
    linarith
  · rw [heq n, heq m, h02]
    have hpow : cfg.backoffFactor ^ n ≤ cfg.backoffFactor ^ m :=
      pow_le_pow_right₀ h2 hnm
    have hd : min (cfg.initialDelayMs * cfg.backoffFactor ^ n) cfg.maxDelayMs ≤
        min (cfg.initialDelayMs * cfg.backoffFactor ^ m) cfg.maxDelayMs :=
      min_le_min (mul_le_mul_of_nonneg_left hpow h1) le_rfl
    have hj : min (cfg.initialDelayMs * cfg.backoffFactor ^ n) cfg.maxDelayMs *
          (1 / 5) * r ≤
        min (cfg.initialDelayMs * cfg.backoffFactor ^ m) cfg.maxDelayMs *
          (1 / 5) * r :=
      mul_le_mul_of_nonneg_right (mul_le_mul_of_nonneg_right hd (by norm_num)) hr0
    linarith

/-- Witness for C9 at the default config, `r = 1/2`, retries 0 and 1. -/
theorem C9_backoff_witness :
    RetryPolicy.calculateBackoff 0 RetryPolicy.DEFAULT_RETRY_CONFIG (mkRat 1 2) ≤
      RetryPolicy.calculateBackoff 1 RetryPolicy.DEFAULT_RETRY_CONFIG (mkRat 1 2) :=
  (C9_backoff RetryPolicy.DEFAULT_RETRY_CONFIG (mkRat 1 2) 0 1 (by decide)
    (by decide) (by decide) (by decide) (by decide)).2.2

/-- Claim C10: the Claude tokens module's estimator and the preprocessor's
estimator agree on every string (both are the ceiling of a quarter of the
length behind a falsy-input guard), and both return `0` on the empty
string. -/
theorem C10_estimators_agree (s : String) :
    ClaudeTokens.estimateTokenCount s = Preprocessing.estimateTokenCount s ∧
      ClaudeTokens.estimateTokenCount "" = 0 ∧
      Preprocessing.estimateTokenCount "" = 0 := by
  refine ⟨?_, by decide, by decide⟩
  rw [claudetokens_estimate_eval, preprocessing_estimate_eval]
